import Mathlib

/-!
# TinyRTC: calendar arithmetic of the DS1307 real-time-clock library

A shallow embedding of `src/TinyRTC.cpp` and theorems about it.

Conventions of the embedding.

* The target is an AVR microcontroller (`<avr/pgmspace.h>`): `int` is 16 bits,
  `long` is 32 bits.  `uint8_t`, `uint16_t` and `uint32_t` values are natural
  numbers, and every operation that can leave the range of its type is followed
  by an explicit `% 2^w`.  A signed `long` is an integer kept in
  `[-2^31, 2^31)` by `wrapLong` (two's-complement wrap-around, which is what the
  AVR instructions do).
* A read of the 12-entry table `daysInMonth` outside the table, or of a
  character behind the terminator of a C string, has no defined result: the
  functions that read return `Option`, with `none` for such a read.
* The two `for (;;)` loops of the epoch constructor are functions with a fuel
  argument; running out of fuel is `none` as well, and the theorems show that
  the fuel given by the constructor is always enough.
* The two-wire bus object `Wire` is a state passed through the methods of
  `RTC_DS1307`: the sequence of calls made on it and the bytes that the device
  delivers to `read()`.  The register pointer `i`, which the source passes to
  `Wire.write` without declaring it, is a parameter of these methods.
-/

namespace TinyRTC

/-! ## Constants and machine integers -/

/-- The constant `SECONDS_FROM_1970_TO_2000` of the source. -/
def SECONDS_FROM_1970_TO_2000 : Nat := 946684800

/-- The constant `SECONDS_PER_DAY` of the source. -/
def SECONDS_PER_DAY : Nat := 86400

/-- Conversion of an integer to `uint8_t`: reduction modulo `2^8`. -/
def toU8 (x : Int) : Nat := (x % 256).toNat

/-- Conversion of an integer to `uint32_t`: reduction modulo `2^32`. -/
def toU32 (x : Int) : Nat := (x % 4294967296).toNat

/-- Conversion of an integer to a signed 32-bit `long`: the representative of
`x` modulo `2^32` in `[-2^31, 2^31)`. -/
def wrapLong (x : Int) : Int := (x + 2147483648) % 4294967296 - 2147483648

/-! ## The days-per-month table -/

/-- Modelled from the spec: the days-per-month lookup table `daysInMonth`, which
the source reads with `pgm_read_byte` but which is declared in the header
`RTClib.h`, not in the source file.  The spec describes it as the
"lookup-table of days-per-month" to which the code adds one day for February in
a leap year, so it holds the month lengths of a common year. -/
def daysInMonth : List Nat := [31, 28, 31, 30, 31, 30, 31, 31, 30, 31, 30, 31]

/-- The read `pgm_read_byte(daysInMonth + k)`: entry `k` of the table, `none`
outside the table. -/
def pgm_read_byte (k : Nat) : Option Nat := daysInMonth[k]?

/-! ## Utility code -/

/-- The loop `for (uint8_t i = 1; i < m; ++i) days += pgm_read_byte(daysInMonth + i - 1);`
of `date2days`.  The first argument is the number of iterations still to run
(`m - i`); `days` is a `uint16_t`. -/
def date2days_loop : Nat → Nat → Nat → Option Nat
  | 0, _, days => some days
  | n + 1, i, days =>
    match pgm_read_byte (i - 1) with
    | none => none
    | some b => date2days_loop n (i + 1) ((days + b) % 65536)

/-- The function `date2days(uint16_t y, uint8_t m, uint8_t d)`.  All arithmetic
is 16-bit unsigned; the final `- 1` is the addition of `65535` modulo `2^16`. -/
def date2days (y m d : Nat) : Option Nat :=
  let y := if y ≥ 2000 then y - 2000 else y
  match date2days_loop (m - 1) 1 d with
  | none => none
  | some days =>
    let days := if m > 2 ∧ y % 4 = 0 then (days + 1) % 65536 else days
    some ((days + 365 * y + (y + 3) / 4 + 65535) % 65536)

/-- The function `time2long(uint16_t days, uint8_t h, uint8_t m, uint8_t s)`:
`((days * 24L + h) * 60 + m) * 60 + s` in signed 32-bit arithmetic, each
operation wrapped. -/
def time2long (days h m s : Nat) : Int :=
  wrapLong (wrapLong (wrapLong (wrapLong (wrapLong ((days : Int) * 24) + h) * 60) + m) * 60) + s
    |> wrapLong

/-- The function `conv2d(const char* p)` on the two characters `p[0] = a` and
`p[1] = b` (character codes): `v` is the digit value of `a` when `a` is an ASCII
digit and `0` otherwise, and the result is `10 * v + b - '0'` as a `uint8_t`. -/
def conv2d (a b : Nat) : Nat :=
  let v : Nat := if 48 ≤ a ∧ a ≤ 57 then toU8 ((a : Int) - 48) else 0
  toU8 (10 * (v : Int) + b - 48)

/-! ## DateTime -/

/-- Modelled from the spec: the class `DateTime`, whose declaration is in the
header `RTClib.h`, not in the source file.  The spec gives the six fields
(year offset from 2000, month, day, hour, minute, second); the source assigns
them as `yOff, m, d, hh, mm, ss`, each a `uint8_t`. -/
structure DateTime where
  yOff : Nat
  m : Nat
  d : Nat
  hh : Nat
  mm : Nat
  ss : Nat
  deriving DecidableEq, Repr

namespace DateTime

/-- Modelled from the spec: the accessor `year()`, declared in the header: "year
reconstructed as `2000+yearOffset`". -/
def year (dt : DateTime) : Nat := 2000 + dt.yOff

/-- Modelled from the spec: the accessor `month()`, the raw field. -/
def month (dt : DateTime) : Nat := dt.m

/-- Modelled from the spec: the accessor `day()`, the raw field. -/
def day (dt : DateTime) : Nat := dt.d

/-- Modelled from the spec: the accessor `hour()`, the raw field. -/
def hour (dt : DateTime) : Nat := dt.hh

/-- Modelled from the spec: the accessor `minute()`, the raw field. -/
def minute (dt : DateTime) : Nat := dt.mm

/-- Modelled from the spec: the accessor `second()`, the raw field. -/
def second (dt : DateTime) : Nat := dt.ss

end DateTime

/-- The first loop of `DateTime::DateTime(uint32_t)`:
`for (yOff = 0; ; ++yOff) { leap = yOff % 4 == 0; if (days < 365 + leap) break; days -= 365 + leap; }`.
Arguments: fuel, `yOff` (a `uint8_t`), `days` (a `uint16_t`).  Result: the final
`yOff`, `leap` and `days`. -/
def yearLoop : Nat → Nat → Nat → Option (Nat × Nat × Nat)
  | 0, _, _ => none
  | fuel + 1, yOff, days =>
    let leap : Nat := if yOff % 4 = 0 then 1 else 0
    if days < 365 + leap then some (yOff, leap, days)
    else yearLoop fuel ((yOff + 1) % 256) (days - (365 + leap))

/-- The second loop of `DateTime::DateTime(uint32_t)`:
`for (m = 1; ; ++m) { daysPerMonth = pgm_read_byte(daysInMonth + m - 1); if (leap && m == 2) ++daysPerMonth; if (days < daysPerMonth) break; days -= daysPerMonth; }`.
Arguments: fuel, `m` (a `uint8_t`), `leap`, `days`.  Result: the final `m` and
`days`. -/
def monthLoop : Nat → Nat → Nat → Nat → Option (Nat × Nat)
  | 0, _, _, _ => none
  | fuel + 1, m, leap, days =>
    match pgm_read_byte (m - 1) with
    | none => none
    | some b =>
      let daysPerMonth := if leap ≠ 0 ∧ m = 2 then (b + 1) % 256 else b
      if days < daysPerMonth then some (m, days)
      else monthLoop fuel ((m + 1) % 256) leap (days - daysPerMonth)

/-- The constructor `DateTime::DateTime(uint32_t t)`.  The year loop is given
256 units of fuel (the counter `yOff` is a `uint8_t`) and the month loop 13 (the
thirteenth read of the table would be outside it). -/
def DateTime.ofEpoch (t : Nat) : Option DateTime :=
  let t := toU32 ((t : Int) - SECONDS_FROM_1970_TO_2000)
  let ss := t % 60
  let t := t / 60
  let mm := t % 60
  let t := t / 60
  let hh := t % 24
  let days := (t / 24) % 65536
  match yearLoop 256 0 days with
  | none => none
  | some (yOff, leap, days) =>
    match monthLoop 13 1 leap days with
    | none => none
    | some (m, days) => some ⟨yOff, m, (days + 1) % 256, hh, mm, ss⟩

/-- The constructor
`DateTime::DateTime(uint16_t year, uint8_t month, uint8_t day, uint8_t hour, uint8_t min, uint8_t sec)`.
The assignment `yOff = year` converts a `uint16_t` to a `uint8_t`. -/
def DateTime.ofFields (year month day hour min sec : Nat) : DateTime :=
  let year := if year ≥ 2000 then year - 2000 else year
  ⟨year % 256, month, day, hour, min, sec⟩

/-- The method `DateTime::dayOfWeek()`: `(day + 6) % 7` on the 16-bit unsigned
`day`, returned as a `uint8_t`. -/
def DateTime.dayOfWeek (dt : DateTime) : Option Nat :=
  match date2days dt.yOff dt.m dt.d with
  | none => none
  | some day => some ((day + 6) % 65536 % 7 % 256)

/-- The method `DateTime::unixtime()`: the `long` result of `time2long` is
converted to the `uint32_t` variable `t`, to which the epoch offset is added
modulo `2^32`. -/
def DateTime.unixtime (dt : DateTime) : Option Nat :=
  match date2days dt.yOff dt.m dt.d with
  | none => none
  | some days =>
    let t := toU32 (time2long days dt.hh dt.mm dt.ss)
    some ((t + SECONDS_FROM_1970_TO_2000) % 4294967296)

/-- The character `p[i]` of a C string whose characters before the terminating
NUL are `s` (character codes): the terminator at index `s.length`, nothing
behind it. -/
def charAt (s : List Nat) (i : Nat) : Option Nat :=
  if i < s.length then s[i]? else if i = s.length then some 0 else none

/-- The character codes of an ASCII string literal. -/
def cstr (s : String) : List Nat := s.toList.map Char.toNat

/-- The `switch (date[0])` of `DateTime::DateTime(const char*, const char*)`,
on the first three characters of the date.  The switch has no `default`: when
no case matches, the field `m` keeps `m0`, the value its storage held before. -/
def monthOfText (m0 c0 c1 c2 : Nat) : Nat :=
  if c0 = 'J'.toNat then (if c1 = 'a'.toNat then 1 else if c2 = 'n'.toNat then 6 else 7)
  else if c0 = 'F'.toNat then 2
  else if c0 = 'A'.toNat then (if c2 = 'r'.toNat then 4 else 8)
  else if c0 = 'M'.toNat then (if c2 = 'r'.toNat then 3 else 5)
  else if c0 = 'S'.toNat then 9
  else if c0 = 'O'.toNat then 10
  else if c0 = 'N'.toNat then 11
  else if c0 = 'D'.toNat then 12
  else m0

/-- The constructor `DateTime::DateTime(const char* date, const char* time)`.
`m0` is the content of the uninitialised field `m` before the constructor
runs. -/
def DateTime.ofText (m0 : Nat) (date time : List Nat) : Option DateTime := do
  let yOff := conv2d (← charAt date 9) (← charAt date 10)
  let m := monthOfText m0 (← charAt date 0) (← charAt date 1) (← charAt date 2)
  let d := conv2d (← charAt date 4) (← charAt date 5)
  let hh := conv2d (← charAt time 0) (← charAt time 1)
  let mm := conv2d (← charAt time 3) (← charAt time 4)
  let ss := conv2d (← charAt time 6) (← charAt time 7)
  pure ⟨yOff, m, d, hh, mm, ss⟩

/-! ## RTC_DS1307 -/

/-- The function `bcd2bin(uint8_t val)`: `val - 6 * (val >> 4)` as a `uint8_t`. -/
def bcd2bin (val : Nat) : Nat := toU8 ((val : Int) - 6 * ((val >>> 4 : Nat) : Int))

/-- The function `bin2bcd(uint8_t val)`: `val + 6 * (val / 10)` as a `uint8_t`. -/
def bin2bcd (val : Nat) : Nat := toU8 ((val : Int) + 6 * ((val / 10 : Nat) : Int))

/-- The constant `DS1307_ADDRESS` of the source. -/
def DS1307_ADDRESS : Nat := 0x68

/-- The calls the source makes on the two-wire bus object `Wire`, an external
collaborator.  The pre-1.0 names `send` and `receive` are the same operations as
`write` and `read`. -/
inductive WireOp where
  | beginTransmission (addr : Nat)
  | write (byte : Nat)
  | endTransmission
  | requestFrom (addr : Nat) (count : Nat)
  | read
  deriving DecidableEq, Repr

/-- The state of the bus as the source sees it: `log` is the sequence of calls
made so far, `rx` the bytes that the device delivers to the following calls of
`read()`, in order. -/
structure Wire where
  log : List WireOp
  rx : List Nat
  deriving DecidableEq, Repr

namespace Wire

/-- The call `Wire.beginTransmission(addr)`. -/
def beginTransmission (w : Wire) (addr : Nat) : Wire :=
  ⟨w.log ++ [WireOp.beginTransmission addr], w.rx⟩

/-- The call `Wire.write(byte)` (pre-1.0: `Wire.send(byte)`); the argument is
converted to a byte. -/
def write (w : Wire) (byte : Nat) : Wire :=
  ⟨w.log ++ [WireOp.write (byte % 256)], w.rx⟩

/-- The call `Wire.endTransmission()`. -/
def endTransmission (w : Wire) : Wire :=
  ⟨w.log ++ [WireOp.endTransmission], w.rx⟩

/-- The call `Wire.requestFrom(addr, count)`. -/
def requestFrom (w : Wire) (addr count : Nat) : Wire :=
  ⟨w.log ++ [WireOp.requestFrom addr count], w.rx⟩

/-- The call `Wire.read()` (pre-1.0: `Wire.receive()`): the next byte of the
device, `none` when the device delivers none. -/
def read (w : Wire) : Option (Nat × Wire) :=
  match w.rx with
  | [] => none
  | b :: rest => some (b, ⟨w.log ++ [WireOp.read], rest⟩)

/-- The bytes written in a sequence of bus calls, in order. -/
def written : List WireOp → List Nat
  | [] => []
  | WireOp.write b :: ops => b :: written ops
  | _ :: ops => written ops

end Wire

namespace RTC_DS1307

/-- The method `RTC_DS1307::begin()`. -/
def begin : Nat := 1

/-- The method `RTC_DS1307::isrunning()` (`ARDUINO >= 100`).  `i` is the register
pointer: the value of the variable `i` that the source passes to `Wire.write`
and does not declare.  The result is `!(ss >> 7)` with the `uint8_t ss` read from
the bus. -/
def isrunning (i : Nat) (w : Wire) : Option (Nat × Wire) :=
  let w := w.beginTransmission DS1307_ADDRESS
  let w := w.write i
  let w := w.endTransmission
  let w := w.requestFrom DS1307_ADDRESS 1
  match w.read with
  | none => none
  | some (b, w) =>
    let ss := b % 256
    some (if ss >>> 7 = 0 then 1 else 0, w)

/-- The method `RTC_DS1307::adjust(const DateTime& dt)` (`ARDUINO >= 100`), with
the register pointer `i`. -/
def adjust (i : Nat) (dt : DateTime) (w : Wire) : Wire :=
  let w := w.beginTransmission DS1307_ADDRESS
  let w := w.write i
  let w := w.write (bin2bcd dt.second)
  let w := w.write (bin2bcd dt.minute)
  let w := w.write (bin2bcd dt.hour)
  let w := w.write (bin2bcd 0)
  let w := w.write (bin2bcd dt.day)
  let w := w.write (bin2bcd dt.month)
  let w := w.write (bin2bcd (toU8 ((dt.year : Int) - 2000)))
  let w := w.write i
  w.endTransmission

/-- The method `RTC_DS1307::now()` (`ARDUINO >= 100`), with the register pointer
`i`.  Each byte read is converted to the `uint8_t` argument of `bcd2bin`; the
year is a `uint16_t`. -/
def now (i : Nat) (w : Wire) : Option (DateTime × Wire) := do
  let w := w.beginTransmission DS1307_ADDRESS
  let w := w.write i
  let w := w.endTransmission
  let w := w.requestFrom DS1307_ADDRESS 7
  let (b0, w) ← w.read
  let ss := bcd2bin ((b0 &&& 0x7F) % 256)
  let (b1, w) ← w.read
  let mm := bcd2bin (b1 % 256)
  let (b2, w) ← w.read
  let hh := bcd2bin (b2 % 256)
  let (_, w) ← w.read
  let (b4, w) ← w.read
  let d := bcd2bin (b4 % 256)
  let (b5, w) ← w.read
  let m := bcd2bin (b5 % 256)
  let (b6, w) ← w.read
  let y := (bcd2bin (b6 % 256) + 2000) % 65536
  pure (DateTime.ofFields y m d hh mm ss, w)

/-- The method `RTC_DS1307::adjust(const DateTime& dt)` of the pre-1.0 branch
(`Wire.send` for `Wire.write`). -/
def adjustPre100 (i : Nat) (dt : DateTime) (w : Wire) : Wire :=
  let w := w.beginTransmission DS1307_ADDRESS
  let w := w.write i
  let w := w.write (bin2bcd dt.second)
  let w := w.write (bin2bcd dt.minute)
  let w := w.write (bin2bcd dt.hour)
  let w := w.write (bin2bcd 0)
  let w := w.write (bin2bcd dt.day)
  let w := w.write (bin2bcd dt.month)
  let w := w.write (bin2bcd (toU8 ((dt.year : Int) - 2000)))
  let w := w.write i
  w.endTransmission

end RTC_DS1307

/-! ## RTC_Millis -/

/-- The state of the software clock: the static variable `long RTC_Millis::offset`. -/
structure RTC_Millis where
  offset : Int
  deriving DecidableEq, Repr

namespace RTC_Millis

/-- The initial state, `long RTC_Millis::offset = 0;`. -/
def init : RTC_Millis := ⟨0⟩

/-- The method `RTC_Millis::adjust(const DateTime& dt)`, called when `millis()`
returns `millis`: `offset = dt.unixtime() - millis() / 1000`, a 32-bit unsigned
subtraction whose result is converted to `long`. -/
def adjust (dt : DateTime) (millis : Nat) : Option RTC_Millis :=
  match dt.unixtime with
  | none => none
  | some u => some ⟨wrapLong (toU32 ((u : Int) - ((millis / 1000 : Nat) : Int)))⟩

/-- The method `RTC_Millis::now()`, called when `millis()` returns `millis`:
`(uint32_t)(offset + millis() / 1000)`, from which the returned `DateTime` is
constructed. -/
def now (s : RTC_Millis) (millis : Nat) : Option DateTime :=
  DateTime.ofEpoch (toU32 (s.offset + ((millis / 1000 : Nat) : Int)))

end RTC_Millis

/-! ## Reference definitions: the Gregorian calendar -/

/-- The Gregorian leap-year rule: divisible by 4 and not by 100, or divisible by
400. -/
def isLeapGregorian (y : Nat) : Bool := (y % 4 == 0 && y % 100 != 0) || y % 400 == 0

/-- The length in days of the Gregorian year `y`. -/
def yearLength (y : Nat) : Nat := if isLeapGregorian y then 366 else 365

/-- The length in days of month `m` (1 to 12) of the Gregorian year `y`. -/
def monthLength (y m : Nat) : Nat :=
  if m = 2 then (if isLeapGregorian y then 29 else 28)
  else if m = 4 ∨ m = 6 ∨ m = 9 ∨ m = 11 then 30
  else 31

/-- The number of days from 2000-01-01 to the date `y`-`m`-`d`, by counting: the
lengths of the full years from 2000 before `y`, the lengths of the months of `y`
before `m`, and `d - 1`. -/
def daysSince2000 (y m d : Nat) : Nat :=
  ((List.range (y - 2000)).map (fun k => yearLength (2000 + k))).sum
    + ((List.range (m - 1)).map (fun j => monthLength y (j + 1))).sum
    + (d - 1)

/-- Zeller's congruence for the Gregorian calendar: the weekday of `y`-`m`-`d`,
numbered 0 = Saturday, 1 = Sunday, ..., 6 = Friday.  January and February count
as months 13 and 14 of the year before. -/
def zeller (y m d : Nat) : Nat :=
  let y1 := if m < 3 then y - 1 else y
  let m1 := if m < 3 then m + 12 else m
  let k := y1 % 100
  let j := y1 / 100
  (d + 13 * (m1 + 1) / 5 + k + k / 4 + j / 4 + 5 * j) % 7

/-- The weekday of `y`-`m`-`d` numbered 0 = Sunday, ..., 6 = Saturday, from
Zeller's congruence. -/
def weekdaySunday0 (y m d : Nat) : Nat := (zeller y m d + 6) % 7

/-- The calendar validity of a `DateTime` in 2000..2099: the fields are in their
ranges and the day exists in its month. -/
def DateTime.Valid (dt : DateTime) : Prop :=
  dt.yOff ≤ 99 ∧ 1 ≤ dt.m ∧ dt.m ≤ 12 ∧ 1 ≤ dt.d ∧ dt.d ≤ monthLength (2000 + dt.yOff) dt.m
    ∧ dt.hh ≤ 23 ∧ dt.mm ≤ 59 ∧ dt.ss ≤ 59

instance DateTime.decidableValid (dt : DateTime) : Decidable dt.Valid := by
  unfold DateTime.Valid; infer_instance

/-- The lexicographic order of `(year, month, day, hour, minute, second)`. -/
def DateTime.lexLt (a b : DateTime) : Prop :=
  a.year < b.year ∨ (a.year = b.year ∧
    (a.month < b.month ∨ (a.month = b.month ∧
      (a.day < b.day ∨ (a.day = b.day ∧
        (a.hour < b.hour ∨ (a.hour = b.hour ∧
          (a.minute < b.minute ∨ (a.minute = b.minute ∧ a.second < b.second)))))))))

instance DateTime.decidableLexLt (a b : DateTime) : Decidable (a.lexLt b) := by
  unfold DateTime.lexLt; infer_instance

/-- The twelve month abbreviations of the date text, in calendar order. -/
def monthNames : List String :=
  ["Jan", "Feb", "Mar", "Apr", "May", "Jun", "Jul", "Aug", "Sep", "Oct", "Nov", "Dec"]

/-- The date text `"Mon DD 20YY"` with the month abbreviation `mon` and the
decimal digits `d1 d2` of the day and `y1 y2` of the year in the century. -/
def dateText (mon : String) (d1 d2 y1 y2 : Nat) : List Nat :=
  cstr mon ++ [' '.toNat, '0'.toNat + d1, '0'.toNat + d2, ' '.toNat, '2'.toNat, '0'.toNat,
    '0'.toNat + y1, '0'.toNat + y2]

/-- The time text `"HH:MM:SS"` with the decimal digits of hour, minute and
second. -/
def timeText (h1 h2 n1 n2 s1 s2 : Nat) : List Nat :=
  ['0'.toNat + h1, '0'.toNat + h2, ':'.toNat, '0'.toNat + n1, '0'.toNat + n2, ':'.toNat,
    '0'.toNat + s1, '0'.toNat + s2]

/-! ## Auxiliary definitions for the proofs -/

/-- The number of days of a common year before month `m` (1 to 12). -/
def cumDays (m : Nat) : Nat :=
  match m with
  | 2 => 31
  | 3 => 59
  | 4 => 90
  | 5 => 120
  | 6 => 151
  | 7 => 181
  | 8 => 212
  | 9 => 243
  | 10 => 273
  | 11 => 304
  | 12 => 334
  | _ => 0

/-- The value of the flag `leap` for the year offset `y`: `y % 4 == 0`. -/
def leapFlag (y : Nat) : Nat := if y % 4 = 0 then 1 else 0

/-- The number of days before month `m` in a year whose leap flag is `leap`. -/
def cumLeap (leap m : Nat) : Nat := cumDays m + (if 2 < m then leap else 0)

/-- The length of month `m` in a year whose leap flag is `leap`. -/
def mlen (leap m : Nat) : Nat :=
  if m = 2 then 28 + leap else if m = 4 ∨ m = 6 ∨ m = 9 ∨ m = 11 then 30 else 31

/-! ## Machine-integer lemmas -/

theorem toU32_wrapLong (x : Int) : toU32 (wrapLong x) = toU32 x := by
  unfold toU32 wrapLong; omega

theorem shiftRight_four (n : Nat) : n >>> 4 = n / 16 := by
  rw [Nat.shiftRight_eq_div_pow]

theorem wrapLong_add (a b : Int) : wrapLong (wrapLong a + b) = wrapLong (a + b) := by
  unfold wrapLong; omega

theorem wrapLong_mul60 (a : Int) : wrapLong (wrapLong a * 60) = wrapLong (a * 60) := by
  unfold wrapLong; omega

theorem time2long_eq (days h m s : Nat) :
    time2long days h m s = wrapLong ((((days : Int) * 24 + h) * 60 + m) * 60 + s) := by
  unfold time2long
  simp only [wrapLong_add, wrapLong_mul60]

/-- The signed intermediate of `unixtime()` does wrap for late dates: at
2099-12-31T23:59:59 `time2long` returns a negative `long`, which the conversion
to `uint32_t` turns back into the number of seconds. -/
theorem time2long_last_second :
    time2long 36524 23 59 59 = 3155759999 - 4294967296 ∧
      toU32 (time2long 36524 23 59 59) = 3155759999 := by
  decide

/-! ## date2days in closed form -/

theorem date2days_closed (y m d : Nat) (hy : y ≤ 99) (hm1 : 1 ≤ m) (hm : m ≤ 12)
    (hd1 : 1 ≤ d) (hd : d ≤ 255) :
    date2days y m d
      = some (365 * y + (y + 3) / 4 + cumLeap (leapFlag y) m + d - 1) := by
  have h2000 : ¬ (y ≥ 2000) := by omega
  interval_cases m <;>
    simp [date2days, date2days_loop, pgm_read_byte, daysInMonth, cumLeap, cumDays, leapFlag,
      h2000] <;>
    (try split_ifs) <;> omega

theorem date2days_full_year (y m d : Nat) (hy : y ≤ 99) :
    date2days (2000 + y) m d = date2days y m d := by
  have h1 : 2000 + y ≥ 2000 := by omega
  have h2 : ¬ (y ≥ 2000) := by omega
  simp [date2days, h2]

/-! ## The loops of the epoch constructor -/

theorem isLeapGregorian_offset (y : Nat) (hy : y ≤ 99) :
    isLeapGregorian (2000 + y) = decide (y % 4 = 0) := by
  unfold isLeapGregorian
  rcases Nat.eq_zero_or_pos y with h0 | hpos
  · subst h0; decide
  · have h1 : (2000 + y) % 4 = y % 4 := by omega
    have h2 : (2000 + y) % 100 = y := by omega
    have h3 : (2000 + y) % 400 = y := by omega
    rw [h1, h2, h3]
    by_cases h : y % 4 = 0
    · have : y ≠ 0 := by omega
      simp [h, this]
    · have : y ≠ 0 := by omega
      simp [h, this]

theorem yearLength_offset (y : Nat) (hy : y ≤ 99) :
    yearLength (2000 + y) = 365 + leapFlag y := by
  unfold yearLength leapFlag
  rw [isLeapGregorian_offset y hy]
  by_cases h : y % 4 = 0 <;> simp [h]

theorem monthLength_offset (y m : Nat) (hy : y ≤ 99) :
    monthLength (2000 + y) m = mlen (leapFlag y) m := by
  unfold monthLength mlen leapFlag
  rw [isLeapGregorian_offset y hy]
  by_cases h : y % 4 = 0 <;> simp [h]

/-- The year loop stops, with enough fuel, at the year that contains the day:
the days before the start year plus `days` are the days before the final year
plus the remaining days, which fit into the final year. -/
theorem yearLoop_spec : ∀ (fuel y0 days : Nat), days < 365 * fuel → y0 + fuel ≤ 256 →
    ∃ y r, yearLoop fuel y0 days = some (y, leapFlag y, r) ∧ r < 365 + leapFlag y ∧
      365 * y0 + (y0 + 3) / 4 + days = 365 * y + (y + 3) / 4 + r ∧ y0 ≤ y ∧ y < y0 + fuel := by
  intro fuel
  induction fuel with
  | zero => intro y0 days h; omega
  | succ fuel ih =>
    intro y0 days hd hy
    by_cases hlt : days < 365 + leapFlag y0
    · refine ⟨y0, days, ?_, hlt, rfl, le_refl _, by omega⟩
      unfold leapFlag at hlt
      simp only [yearLoop, leapFlag, hlt, if_true]
    · have hflag : leapFlag y0 ≤ 1 := by unfold leapFlag; split_ifs <;> omega
      have hfuel : 1 ≤ fuel := by omega
      have hwrap : (y0 + 1) % 256 = y0 + 1 := by omega
      obtain ⟨y, r, h1, h2, h3, h4, h5⟩ :=
        ih (y0 + 1) (days - (365 + leapFlag y0)) (by omega) (by omega)
      refine ⟨y, r, ?_, h2, ?_, by omega, by omega⟩
      · unfold leapFlag at hlt
        simp only [yearLoop, hlt, if_false, hwrap]
        exact h1
      · have hf : (y0 + 1 + 3) / 4 = (y0 + 3) / 4 + leapFlag y0 := by
          unfold leapFlag; split_ifs <;> omega
        omega

theorem cumLeap_succ (leap m : Nat) (h1 : 1 ≤ m) (h2 : m ≤ 11) :
    cumLeap leap (m + 1) = cumLeap leap m + mlen leap m := by
  interval_cases m <;> simp [cumLeap, cumDays, mlen] <;> omega

theorem cumLeap_last (leap : Nat) : cumLeap leap 12 + mlen leap 12 = 365 + leap := by
  simp [cumLeap, cumDays, mlen]; omega

theorem mlen_le (leap m : Nat) (hl : leap ≤ 1) : mlen leap m ≤ 31 := by
  unfold mlen; split_ifs <;> omega

theorem mlen_pos (leap m : Nat) : 28 ≤ mlen leap m := by
  unfold mlen; split_ifs <;> omega

/-- One iteration of the month loop, for a month inside the table. -/
theorem monthLoop_step (fuel m leap days : Nat) (hl : leap ≤ 1) (h1 : 1 ≤ m) (h2 : m ≤ 12) :
    monthLoop (fuel + 1) m leap days
      = if days < mlen leap m then some (m, days)
        else monthLoop fuel (m + 1) leap (days - mlen leap m) := by
  have h01 : leap = 0 ∨ leap = 1 := by omega
  rcases h01 with h | h <;> subst h <;> interval_cases m <;>
    simp [monthLoop, pgm_read_byte, daysInMonth, mlen]

/-- The month loop stops, for a day that exists in the rest of the year, at the
month that contains it. -/
theorem monthLoop_inv (leap : Nat) (hl : leap ≤ 1) : ∀ (fuel m days : Nat),
    1 ≤ m → m ≤ 12 → 13 ≤ m + fuel → cumLeap leap m + days < 365 + leap →
    ∃ m1 r1, monthLoop fuel m leap days = some (m1, r1) ∧ m ≤ m1 ∧ m1 ≤ 12 ∧
      r1 < mlen leap m1 ∧ cumLeap leap m1 + r1 = cumLeap leap m + days := by
  intro fuel
  induction fuel with
  | zero => intro m days h1 h2 h3; omega
  | succ fuel ih =>
    intro m days h1 h2 h3 h4
    rw [monthLoop_step fuel m leap days hl h1 h2]
    by_cases hlt : days < mlen leap m
    · exact ⟨m, days, by simp [hlt], le_refl _, h2, hlt, rfl⟩
    · have hlast := cumLeap_last leap
      have hm : m ≤ 11 := by
        by_contra hc
        have : m = 12 := by omega
        subst this
        omega
      have hs := cumLeap_succ leap m h1 hm
      obtain ⟨m1, r1, e1, e2, e3, e4, e5⟩ :=
        ih (m + 1) (days - mlen leap m) (by omega) (by omega) (by omega) (by omega)
      exact ⟨m1, r1, by simp [hlt, e1], by omega, e3, e4, by omega⟩

theorem monthLoop_spec (leap r : Nat) (hl : leap ≤ 1) (hr : r < 365 + leap) :
    ∃ m r1, monthLoop 13 1 leap r = some (m, r1) ∧ 1 ≤ m ∧ m ≤ 12 ∧ r1 < mlen leap m ∧
      cumLeap leap m + r1 = r := by
  obtain ⟨m, r1, e1, e2, e3, e4, e5⟩ :=
    monthLoop_inv leap hl 13 1 r (le_refl _) (by omega) (by omega)
      (by simp [cumLeap, cumDays]; omega)
  refine ⟨m, r1, e1, e2, e3, e4, ?_⟩
  simpa [cumLeap, cumDays] using e5

/-! ## The epoch constructor and `unixtime` -/

/-- The epoch constructor returns, for every 32-bit `t`, the date whose day
number is `s / 86400` and whose time of day is `s % 86400`, where `s` is `t`
rebased to the year 2000 modulo `2^32`. -/
theorem ofEpoch_spec (t : Nat) :
    ∃ y m r1, DateTime.ofEpoch t
        = some ⟨y, m, r1 + 1, toU32 ((t : Int) - 946684800) / 3600 % 24,
            toU32 ((t : Int) - 946684800) / 60 % 60, toU32 ((t : Int) - 946684800) % 60⟩ ∧
      y ≤ 179 ∧ 1 ≤ m ∧ m ≤ 12 ∧ r1 < mlen (leapFlag y) m ∧
      365 * y + (y + 3) / 4 + cumLeap (leapFlag y) m + r1
        = toU32 ((t : Int) - 946684800) / 86400 := by
  simp only [DateTime.ofEpoch, SECONDS_FROM_1970_TO_2000, Nat.cast_ofNat]
  have hs : toU32 ((t : Int) - 946684800) < 4294967296 := by unfold toU32; omega
  generalize toU32 ((t : Int) - 946684800) = s at hs
  have hdays : s / 60 / 60 / 24 % 65536 = s / 86400 := by omega
  obtain ⟨y, r, e1, e2, e3, _, e5⟩ := yearLoop_spec 256 0 (s / 86400) (by omega) (by omega)
  have hflag : leapFlag y ≤ 1 := by unfold leapFlag; split_ifs <;> omega
  obtain ⟨m, r1, f1, f2, f3, f4, f5⟩ := monthLoop_spec (leapFlag y) r hflag e2
  have hml := mlen_le (leapFlag y) m hflag
  refine ⟨y, m, r1, ?_, by omega, f2, f3, f4, by omega⟩
  have hd : (r1 + 1) % 256 = r1 + 1 := by omega
  have hh : s / 60 / 60 % 24 = s / 3600 % 24 := by omega
  simp only [hdays, e1, f1, hd, hh]

/-- The value of `unixtime()` for fields in their ranges: the mathematical
value, without wrap-around. -/
theorem unixtime_closed (y m d hh mm ss : Nat) (hy : y ≤ 99) (hm1 : 1 ≤ m) (hm : m ≤ 12)
    (hd1 : 1 ≤ d) (hd : d ≤ 31) (hhh : hh ≤ 23) (hmm : mm ≤ 59) (hss : ss ≤ 59) :
    DateTime.unixtime ⟨y, m, d, hh, mm, ss⟩
      = some (946684800
          + (((365 * y + (y + 3) / 4 + cumLeap (leapFlag y) m + d - 1) * 24 + hh) * 60 + mm) * 60
          + ss) := by
  have hflag : leapFlag y ≤ 1 := by unfold leapFlag; split_ifs <;> omega
  have hc : cumLeap (leapFlag y) m ≤ 335 := by
    interval_cases m <;> simp [cumLeap, cumDays] <;> omega
  simp only [DateTime.unixtime, date2days_closed y m d hy hm1 hm hd1 (by omega),
    time2long_eq, toU32_wrapLong, SECONDS_FROM_1970_TO_2000]
  have hdays : 365 * y + (y + 3) / 4 + cumLeap (leapFlag y) m + d - 1 ≤ 36600 := by omega
  generalize 365 * y + (y + 3) / 4 + cumLeap (leapFlag y) m + d - 1 = days at hdays ⊢
  have hu : toU32 ((((days : Int) * 24 + hh) * 60 + mm) * 60 + ss)
      = ((days * 24 + hh) * 60 + mm) * 60 + ss := by
    unfold toU32; omega
  rw [hu]
  refine congrArg some ?_
  omega

theorem leapFlag_le (y : Nat) : leapFlag y ≤ 1 := by
  unfold leapFlag; split_ifs <;> omega

theorem leapFlag_div (y : Nat) : (y + 1 + 3) / 4 = (y + 3) / 4 + leapFlag y := by
  unfold leapFlag; split_ifs <;> omega

theorem cumLeap_mlen_le (leap m : Nat) (h1 : 1 ≤ m) (h2 : m ≤ 12) :
    cumLeap leap m + mlen leap m ≤ 365 + leap := by
  interval_cases m <;> simp [cumLeap, cumDays, mlen] <;> omega

theorem cumLeap_mono (leap m : Nat) (h1 : 1 ≤ m) : ∀ k : Nat, m + 1 + k ≤ 12 →
    cumLeap leap m + mlen leap m ≤ cumLeap leap (m + 1 + k) := by
  intro k
  induction k with
  | zero => intro h; rw [Nat.add_zero, cumLeap_succ leap m h1 (by omega)]
  | succ k ih =>
    intro h
    have h3 := ih (by omega)
    have h4 := cumLeap_succ leap (m + 1 + k) (by omega) (by omega)
    have h5 : m + 1 + (k + 1) = m + 1 + k + 1 := by omega
    rw [h5, h4]
    omega

/-- A day of the year lies in one month only. -/
theorem month_unique (leap m m1 r r1 : Nat) (h1 : 1 ≤ m) (h2 : m ≤ 12) (g1 : 1 ≤ m1)
    (g2 : m1 ≤ 12) (hr : r < mlen leap m) (hr1 : r1 < mlen leap m1)
    (he : cumLeap leap m + r = cumLeap leap m1 + r1) : m = m1 ∧ r = r1 := by
  have hm : m = m1 := by
    rcases Nat.lt_trichotomy m m1 with hlt | heq | hgt
    · have := cumLeap_mono leap m h1 (m1 - (m + 1)) (by omega)
      have e : m + 1 + (m1 - (m + 1)) = m1 := by omega
      rw [e] at this
      omega
    · exact heq
    · have := cumLeap_mono leap m1 g1 (m - (m1 + 1)) (by omega)
      have e : m1 + 1 + (m - (m1 + 1)) = m := by omega
      rw [e] at this
      omega
  subst hm
  exact ⟨rfl, by omega⟩

/-- A day number lies in one year only. -/
theorem year_unique (y y1 a a1 : Nat) (ha : a < 365 + leapFlag y) (ha1 : a1 < 365 + leapFlag y1)
    (he : 365 * y + (y + 3) / 4 + a = 365 * y1 + (y1 + 3) / 4 + a1) : y = y1 ∧ a = a1 := by
  have f := leapFlag_div y
  have f1 := leapFlag_div y1
  have hy : y = y1 := by omega
  subst hy
  exact ⟨rfl, by omega⟩

/-- The epoch constructor inverts `unixtime()` from 2000-01-01T00:00:00 to
2099-12-31T23:59:59. -/
theorem unixtime_ofEpoch (t : Nat) (h1 : 946684800 ≤ t) (h2 : t ≤ 4102444799) :
    ∃ dt, DateTime.ofEpoch t = some dt ∧ dt.unixtime = some t ∧ dt.Valid := by
  obtain ⟨y, m, r1, e, _, hm1, hm, hr, hd⟩ := ofEpoch_spec t
  have hs : toU32 ((t : Int) - 946684800) = t - 946684800 := by unfold toU32; omega
  rw [hs] at e hd
  have hfl := leapFlag_le y
  have hml := mlen_le (leapFlag y) m hfl
  have hy : y ≤ 99 := by omega
  refine ⟨_, e, ?_, ?_⟩
  · rw [unixtime_closed y m (r1 + 1) _ _ _ hy hm1 hm (by omega) (by omega) (by omega) (by omega)
      (by omega)]
    refine congrArg some ?_
    have e2 : 365 * y + (y + 3) / 4 + cumLeap (leapFlag y) m + (r1 + 1) - 1
        = (t - 946684800) / 86400 := by omega
    rw [e2]
    omega
  · unfold DateTime.Valid
    simp only
    rw [monthLength_offset y m hy]
    omega

/-- `unixtime()` followed by the epoch constructor gives back every calendar-valid
`DateTime` of 2000..2099. -/
theorem ofEpoch_unixtime (dt : DateTime) (hv : dt.Valid) :
    ∃ u, dt.unixtime = some u ∧ 946684800 ≤ u ∧ u ≤ 4102444799 ∧
      DateTime.ofEpoch u = some dt := by
  obtain ⟨y, m, d, hh, mm, ss⟩ := dt
  obtain ⟨hy, hm1, hm, hd1, hd, hhh, hmm, hss⟩ := hv
  simp only at hy hm1 hm hd1 hd hhh hmm hss
  rw [monthLength_offset y m hy] at hd
  have hfl := leapFlag_le y
  have hml := mlen_le (leapFlag y) m hfl
  have hcl := cumLeap_mlen_le (leapFlag y) m hm1 hm
  have hu := unixtime_closed y m d hh mm ss hy hm1 hm hd1 (by omega) hhh hmm hss
  have hdiv := leapFlag_div y
  have hD : 365 * y + (y + 3) / 4 + cumLeap (leapFlag y) m + d - 1 ≤ 36524 := by omega
  generalize hDdef : 365 * y + (y + 3) / 4 + cumLeap (leapFlag y) m + d - 1 = D at hu hD
  refine ⟨_, hu, by omega, by omega, ?_⟩
  obtain ⟨y1, m1, r1, e, _, gm1, gm, gr, gd⟩ :=
    ofEpoch_spec (946684800 + (((D * 24 + hh) * 60 + mm) * 60) + ss)
  have hs : toU32 (((946684800 + (((D * 24 + hh) * 60 + mm) * 60) + ss : Nat) : Int) - 946684800)
      = ((D * 24 + hh) * 60 + mm) * 60 + ss := by unfold toU32; omega
  rw [hs] at e gd
  have t1 : (((D * 24 + hh) * 60 + mm) * 60 + ss) / 86400 = D := by omega
  have t2 : (((D * 24 + hh) * 60 + mm) * 60 + ss) / 3600 % 24 = hh := by omega
  have t3 : (((D * 24 + hh) * 60 + mm) * 60 + ss) / 60 % 60 = mm := by omega
  have t4 : (((D * 24 + hh) * 60 + mm) * 60 + ss) % 60 = ss := by omega
  rw [t1] at gd
  rw [t2, t3, t4] at e
  obtain ⟨ey, ea⟩ := year_unique y1 y (cumLeap (leapFlag y1) m1 + r1)
    (cumLeap (leapFlag y) m + (d - 1))
    (by have := cumLeap_mlen_le (leapFlag y1) m1 gm1 gm; omega) (by omega) (by omega)
  subst ey
  obtain ⟨em, er⟩ := month_unique (leapFlag y1) m1 m r1 (d - 1) gm1 gm hm1 hm gr (by omega) ea
  subst em
  have ed : r1 + 1 = d := by omega
  rw [ed] at e
  exact e

/-! ## Counting days in the Gregorian calendar -/

theorem sum_yearLength (n : Nat) (hn : n ≤ 100) :
    ((List.range n).map (fun k => yearLength (2000 + k))).sum = 365 * n + (n + 3) / 4 := by
  induction n with
  | zero => rfl
  | succ n ih =>
    rw [List.range_succ, List.map_append, List.sum_append, ih (by omega),
      List.map_singleton, List.sum_singleton, yearLength_offset n (by omega)]
    have := leapFlag_div n
    omega

theorem sum_monthLength (y m : Nat) (hy : y ≤ 99) (hm1 : 1 ≤ m) (hm : m ≤ 12) :
    ((List.range (m - 1)).map (fun j => monthLength (2000 + y) (j + 1))).sum
      = cumLeap (leapFlag y) m := by
  simp only [monthLength_offset y _ hy]
  interval_cases m <;> simp [List.range_succ, mlen, cumLeap, cumDays] <;> omega

theorem daysSince2000_closed (y m d : Nat) (hy : y ≤ 99) (hm1 : 1 ≤ m) (hm : m ≤ 12) :
    daysSince2000 (2000 + y) m d
      = 365 * y + (y + 3) / 4 + cumLeap (leapFlag y) m + (d - 1) := by
  unfold daysSince2000
  rw [sum_monthLength y m hy hm1 hm, Nat.add_sub_cancel_left, sum_yearLength y (by omega)]

theorem ofFields_full_year (y m d hh mm ss : Nat) (hy : y ≤ 99) :
    DateTime.ofFields (2000 + y) m d hh mm ss = ⟨y, m, d, hh, mm, ss⟩ := by
  have h1 : 2000 + y ≥ 2000 := by omega
  have h2 : y % 256 = y := by omega
  simp [DateTime.ofFields, h2]

/-- Zeller's congruence in closed form for the years 2000..2099. -/
theorem weekdaySunday0_closed (y m d : Nat) (hy : y ≤ 99) (hm1 : 1 ≤ m) (hm : m ≤ 12) :
    weekdaySunday0 (2000 + y) m d
      = (365 * y + (y + 3) / 4 + cumLeap (leapFlag y) m + d + 5) % 7 := by
  have hfl := leapFlag_le y
  have hdiv := leapFlag_div y
  have c1 : (2000 + y) / 100 = 20 := by omega
  have c2 : (2000 + y) % 100 = y := by omega
  have c3 : 2000 + y - 1 = 1999 + y := by omega
  have c7 : y / 4 + 1 = (y + 3) / 4 + leapFlag y := by omega
  generalize hq : (y + 3) / 4 = q at *
  rcases Nat.eq_zero_or_pos y with h0 | hpos
  · subst h0
    have hq0 : q = 0 := by omega
    subst hq0
    interval_cases m <;> simp [cumLeap, cumDays, weekdaySunday0, zeller, leapFlag] <;> omega
  · have c4 : (1999 + y) / 100 = 20 := by omega
    have c5 : (1999 + y) % 100 = y - 1 := by omega
    have c6 : (y - 1) / 4 + 1 = q := by omega
    generalize hp : y / 4 = p at *
    generalize hp1 : (y - 1) / 4 = p1 at *
    generalize hl : leapFlag y = lf at *
    interval_cases m <;>
      simp [cumLeap, cumDays, weekdaySunday0, zeller, c1, c2, c3, c4, c5, hp, hp1] <;> omega

/-! ## The claims -/

/-- Claim C1: for every year `y` in 2000..2099, month `m` in 1..12 and day `d` in
1..28, `DateTime(y,m,d,0,0,0).unixtime()` returns a number from which the epoch
constructor builds a `DateTime` whose `year()` is `y`, `month()` is `m` and
`day()` is `d`. -/
theorem roundtrip_date_midnight (y m d : Nat) (hy1 : 2000 ≤ y) (hy2 : y ≤ 2099)
    (hm1 : 1 ≤ m) (hm : m ≤ 12) (hd1 : 1 ≤ d) (hd : d ≤ 28) :
    ∃ u dt, (DateTime.ofFields y m d 0 0 0).unixtime = some u ∧
      DateTime.ofEpoch u = some dt ∧ dt.year = y ∧ dt.month = m ∧ dt.day = d := by
  obtain ⟨k, rfl⟩ : ∃ k, y = 2000 + k := ⟨y - 2000, by omega⟩
  have hk : k ≤ 99 := by omega
  rw [ofFields_full_year k m d 0 0 0 hk]
  have hv : DateTime.Valid ⟨k, m, d, 0, 0, 0⟩ := by
    unfold DateTime.Valid
    simp only
    rw [monthLength_offset k m hk]
    have := mlen_pos (leapFlag k) m
    omega
  obtain ⟨u, e1, _, _, e2⟩ := ofEpoch_unixtime _ hv
  exact ⟨u, _, e1, e2, rfl, rfl, rfl⟩

theorem roundtrip_date_midnight_witness :
    ∃ u dt, (DateTime.ofFields 2024 2 28 0 0 0).unixtime = some u ∧
      DateTime.ofEpoch u = some dt ∧ dt.year = 2024 ∧ dt.month = 2 ∧ dt.day = 28 :=
  roundtrip_date_midnight 2024 2 28 (by decide) (by decide) (by decide) (by decide) (by decide)
    (by decide)

/-- Claim C2: `unixtime()` is the inverse of the epoch constructor: for every `t`
from 946684800 to 4102444799 the constructor returns a `DateTime` whose
`unixtime()` is `t`. -/
theorem unixtime_inverse_of_epoch (t : Nat) (h1 : 946684800 ≤ t) (h2 : t ≤ 4102444799) :
    ∃ dt, DateTime.ofEpoch t = some dt ∧ dt.unixtime = some t := by
  obtain ⟨dt, e1, e2, _⟩ := unixtime_ofEpoch t h1 h2
  exact ⟨dt, e1, e2⟩

theorem unixtime_inverse_of_epoch_witness :
    ∃ dt, DateTime.ofEpoch 4102444799 = some dt ∧ dt.unixtime = some 4102444799 :=
  unixtime_inverse_of_epoch 4102444799 (by decide) (by decide)

/-- Claim C3: for every date with year offset `y` in 0..99 (the year given as the
offset or as the full year `2000 + y`), month in 1..12 and day from 1 to the
length of the month, `date2days` returns the number of days since 2000-01-01
counted in the Gregorian calendar: the lengths of the full years before, the
lengths of the earlier months of the year, and `d - 1`. -/
theorem date2days_gregorian (y m d : Nat) (hy : y ≤ 99) (hm1 : 1 ≤ m) (hm : m ≤ 12)
    (hd1 : 1 ≤ d) (hd : d ≤ monthLength (2000 + y) m) :
    date2days y m d = some (daysSince2000 (2000 + y) m d) ∧
      date2days (2000 + y) m d = some (daysSince2000 (2000 + y) m d) := by
  rw [monthLength_offset y m hy] at hd
  have hml := mlen_le (leapFlag y) m (leapFlag_le y)
  have h := date2days_closed y m d hy hm1 hm hd1 (by omega)
  have e : 365 * y + (y + 3) / 4 + cumLeap (leapFlag y) m + d - 1
      = daysSince2000 (2000 + y) m d := by
    rw [daysSince2000_closed y m d hy hm1 hm]
    omega
  rw [e] at h
  exact ⟨h, by rw [date2days_full_year y m d hy]; exact h⟩

theorem date2days_gregorian_witness :
    date2days 24 2 29 = some (daysSince2000 (2000 + 24) 2 29) ∧
      date2days (2000 + 24) 2 29 = some (daysSince2000 (2000 + 24) 2 29) :=
  date2days_gregorian 24 2 29 (by decide) (by decide) (by decide) (by decide) (by decide)

/-- Claim C4: for a `DateTime` with year offset in 0..99, month in 1..12, day in
1..31, hour in 0..23, minute and second in 0..59, `unixtime()` returns the
mathematical integer `946684800 + ((days*24 + hour)*60 + minute)*60 + second`,
where `days` is what `date2days` returns for the date: the 16-bit and 32-bit
reductions do not change the value.  In particular
`DateTime(2000,1,1,0,0,0).unixtime()` is 946684800. -/
theorem unixtime_exact (y m d hh mm ss : Nat) (hy : y ≤ 99) (hm1 : 1 ≤ m) (hm : m ≤ 12)
    (hd1 : 1 ≤ d) (hd : d ≤ 31) (hhh : hh ≤ 23) (hmm : mm ≤ 59) (hss : ss ≤ 59) :
    (∃ days, date2days y m d = some days ∧
      DateTime.unixtime ⟨y, m, d, hh, mm, ss⟩
        = some (946684800 + ((days * 24 + hh) * 60 + mm) * 60 + ss) ∧
      946684800 + ((days * 24 + hh) * 60 + mm) * 60 + ss < 4294967296) ∧
    (DateTime.ofFields 2000 1 1 0 0 0).unixtime = some 946684800 := by
  refine ⟨⟨_, date2days_closed y m d hy hm1 hm hd1 (by omega), ?_, ?_⟩, by decide⟩
  · exact unixtime_closed y m d hh mm ss hy hm1 hm hd1 hd hhh hmm hss
  · have hc := cumLeap_mlen_le (leapFlag y) m hm1 hm
    have := leapFlag_le y
    omega

theorem unixtime_exact_witness :
    (∃ days, date2days 99 12 31 = some days ∧
      DateTime.unixtime ⟨99, 12, 31, 23, 59, 59⟩
        = some (946684800 + ((days * 24 + 23) * 60 + 59) * 60 + 59) ∧
      946684800 + ((days * 24 + 23) * 60 + 59) * 60 + 59 < 4294967296) ∧
    (DateTime.ofFields 2000 1 1 0 0 0).unixtime = some 946684800 :=
  unixtime_exact 99 12 31 23 59 59 (by decide) (by decide) (by decide) (by decide) (by decide)
    (by decide) (by decide) (by decide)

/-- Claim C5: for every valid date from 2000-01-01 to 2099-12-31, `dayOfWeek()`
returns a value in 0..6 that is the Gregorian weekday of the date, numbered
0 = Sunday to 6 = Saturday, as Zeller's congruence gives it.  In particular
`DateTime(2000,1,1,0,0,0).dayOfWeek()` is 6. -/
theorem dayOfWeek_gregorian (y m d hh mm ss : Nat) (hy : y ≤ 99) (hm1 : 1 ≤ m) (hm : m ≤ 12)
    (hd1 : 1 ≤ d) (hd : d ≤ monthLength (2000 + y) m) :
    (∃ w, DateTime.dayOfWeek ⟨y, m, d, hh, mm, ss⟩ = some w ∧ w ≤ 6 ∧
      w = weekdaySunday0 (2000 + y) m d) ∧
    (DateTime.ofFields 2000 1 1 0 0 0).dayOfWeek = some 6 := by
  refine ⟨?_, by decide⟩
  rw [monthLength_offset y m hy] at hd
  have hml := mlen_le (leapFlag y) m (leapFlag_le y)
  have h := date2days_closed y m d hy hm1 hm hd1 (by omega)
  refine ⟨_, by rw [DateTime.dayOfWeek, h], by omega, ?_⟩
  rw [weekdaySunday0_closed y m d hy hm1 hm]
  have hc := cumLeap_mlen_le (leapFlag y) m hm1 hm
  have hfl := leapFlag_le y
  have e1 : 365 * y + (y + 3) / 4 + cumLeap (leapFlag y) m + d - 1 + 6
      = 365 * y + (y + 3) / 4 + cumLeap (leapFlag y) m + d + 5 := by omega
  have e2 : 365 * y + (y + 3) / 4 + cumLeap (leapFlag y) m + d + 5 < 65536 := by omega
  rw [e1, Nat.mod_eq_of_lt e2]
  omega

theorem dayOfWeek_gregorian_witness :
    (∃ w, DateTime.dayOfWeek ⟨26, 10, 30, 12, 0, 0⟩ = some w ∧ w ≤ 6 ∧
      w = weekdaySunday0 (2000 + 26) 10 30) ∧
    (DateTime.ofFields 2000 1 1 0 0 0).dayOfWeek = some 6 :=
  dayOfWeek_gregorian 26 10 30 12 0 0 (by decide) (by decide) (by decide) (by decide)
    (by decide)

/-- Claim C6: for every year `y` in 2000..2099,
`DateTime(y,3,1,0,0,0).unixtime() - DateTime(y,2,1,0,0,0).unixtime()` is
`29*86400` when `y % 4 == 0` and `28*86400` otherwise, as a difference of
integers and as the 32-bit unsigned difference; for `y = 2000` it is
`29*86400`. -/
theorem february_length (y : Nat) (hy1 : 2000 ≤ y) (hy2 : y ≤ 2099) :
    (∃ a b, (DateTime.ofFields y 3 1 0 0 0).unixtime = some a ∧
      (DateTime.ofFields y 2 1 0 0 0).unixtime = some b ∧
      (a : Int) - b = (if y % 4 = 0 then 29 * 86400 else 28 * 86400) ∧
      toU32 ((a : Int) - b) = (if y % 4 = 0 then 29 * 86400 else 28 * 86400)) ∧
    (∃ a b, (DateTime.ofFields 2000 3 1 0 0 0).unixtime = some a ∧
      (DateTime.ofFields 2000 2 1 0 0 0).unixtime = some b ∧ (a : Int) - b = 29 * 86400) := by
  have gen : ∀ y : Nat, 2000 ≤ y → y ≤ 2099 →
      ∃ a b, (DateTime.ofFields y 3 1 0 0 0).unixtime = some a ∧
        (DateTime.ofFields y 2 1 0 0 0).unixtime = some b ∧
        (a : Int) - b = (if y % 4 = 0 then 29 * 86400 else 28 * 86400) ∧
        toU32 ((a : Int) - b) = (if y % 4 = 0 then 29 * 86400 else 28 * 86400) := by
    intro y hy1 hy2
    obtain ⟨k, rfl⟩ : ∃ k, y = 2000 + k := ⟨y - 2000, by omega⟩
    have hk : k ≤ 99 := by omega
    have hmod : (2000 + k) % 4 = k % 4 := by omega
    rw [ofFields_full_year k 3 1 0 0 0 hk, ofFields_full_year k 2 1 0 0 0 hk]
    have ha : DateTime.unixtime ⟨k, 3, 1, 0, 0, 0⟩
        = some (946684800 + 86400 * (365 * k + (k + 3) / 4 + 31) + 86400 * (28 + leapFlag k)) := by
      rw [unixtime_closed k 3 1 0 0 0 hk (by omega) (by omega) (by omega) (by omega)
        (by omega) (by omega) (by omega)]
      refine congrArg some ?_
      simp [cumLeap, cumDays]
      omega
    have hb : DateTime.unixtime ⟨k, 2, 1, 0, 0, 0⟩
        = some (946684800 + 86400 * (365 * k + (k + 3) / 4 + 31)) := by
      rw [unixtime_closed k 2 1 0 0 0 hk (by omega) (by omega) (by omega) (by omega)
        (by omega) (by omega) (by omega)]
      refine congrArg some ?_
      simp [cumLeap, cumDays]
      omega
    have hl : leapFlag k = if (2000 + k) % 4 = 0 then 1 else 0 := by
      unfold leapFlag; rw [hmod]
    generalize 946684800 + 86400 * (365 * k + (k + 3) / 4 + 31) = b at ha hb
    refine ⟨_, _, ha, hb, ?_, ?_⟩
    · rw [hl]; split_ifs <;> push_cast <;> ring
    · rw [hl]; unfold toU32; split_ifs <;> push_cast <;> ring_nf <;> rfl
  refine ⟨gen y hy1 hy2, ?_⟩
  obtain ⟨a, b, e1, e2, e3, _⟩ := gen 2000 (le_refl _) (by omega)
  exact ⟨a, b, e1, e2, by simpa using e3⟩

theorem february_length_witness :
    (∃ a b, (DateTime.ofFields 2023 3 1 0 0 0).unixtime = some a ∧
      (DateTime.ofFields 2023 2 1 0 0 0).unixtime = some b ∧
      (a : Int) - b = (if 2023 % 4 = 0 then 29 * 86400 else 28 * 86400) ∧
      toU32 ((a : Int) - b) = (if 2023 % 4 = 0 then 29 * 86400 else 28 * 86400)) ∧
    (∃ a b, (DateTime.ofFields 2000 3 1 0 0 0).unixtime = some a ∧
      (DateTime.ofFields 2000 2 1 0 0 0).unixtime = some b ∧ (a : Int) - b = 29 * 86400) :=
  february_length 2023 (by decide) (by decide)

/-- Claim C7: for every `val` in 0..99, `bcd2bin(bin2bcd(val))` is `val`. -/
theorem bcd_roundtrip (val : Nat) (h : val ≤ 99) : bcd2bin (bin2bcd val) = val := by
  have e : bin2bcd val = 16 * (val / 10) + val % 10 := by
    simp only [bin2bcd, toU8]; omega
  rw [e]
  simp only [bcd2bin, toU8, shiftRight_four]
  omega

theorem bcd_roundtrip_witness : bcd2bin (bin2bcd 59) = 59 := bcd_roundtrip 59 (by decide)

/-- Claim C8: the BCD helpers are exact packed-BCD conversions: for every `val` in
0..99, `bin2bcd(val)` is `16*(val/10) + val%10`, which fits in a byte and has
high nibble `val/10` and low nibble `val%10`; and for every byte `b`,
`bcd2bin(b)` is `10*(b >> 4) + (b & 0x0F)`. -/
theorem bcd_exact (val b : Nat) (hval : val ≤ 99) (hb : b < 256) :
    (bin2bcd val = 16 * (val / 10) + val % 10 ∧ bin2bcd val < 256 ∧
      bin2bcd val >>> 4 = val / 10 ∧ bin2bcd val &&& 15 = val % 10) ∧
    bcd2bin b = 10 * (b >>> 4) + (b &&& 15) := by
  have hand : ∀ n : Nat, n &&& 15 = n % 16 := fun n => Nat.and_pow_two_sub_one_eq_mod n 4
  have e : bin2bcd val = 16 * (val / 10) + val % 10 := by
    simp only [bin2bcd, toU8]; omega
  refine ⟨⟨e, by omega, ?_, ?_⟩, ?_⟩
  · rw [e, shiftRight_four]; omega
  · rw [e, hand]; omega
  · simp only [bcd2bin, toU8, hand, shiftRight_four]; omega

theorem bcd_exact_witness :
    (bin2bcd 47 = 16 * (47 / 10) + 47 % 10 ∧ bin2bcd 47 < 256 ∧
      bin2bcd 47 >>> 4 = 47 / 10 ∧ bin2bcd 47 &&& 15 = 47 % 10) ∧
    bcd2bin 255 = 10 * (255 >>> 4) + (255 &&& 15) :=
  bcd_exact 47 255 (by decide) (by decide)

theorem conv2d_digits (a b : Nat) (ha : a ≤ 9) (hb : b ≤ 9) :
    conv2d (48 + a) (48 + b) = 10 * a + b := by
  have h1 : 48 ≤ 48 + a ∧ 48 + a ≤ 57 := by omega
  simp only [conv2d, h1, toU8]
  simp
  omega

theorem monthNames_codes : monthNames.map cstr
    = [[74, 97, 110], [70, 101, 98], [77, 97, 114], [65, 112, 114], [77, 97, 121],
       [74, 117, 110], [74, 117, 108], [65, 117, 103], [83, 101, 112], [79, 99, 116],
       [78, 111, 118], [68, 101, 99]] := by
  decide

/-- Claim C9: for every date text `"Mon DD 20YY"`, `Mon` one of the twelve month
abbreviations and `DD`, `YY` pairs of ASCII digits, and every time text
`"HH:MM:SS"` of ASCII digit pairs, the text constructor returns a `DateTime`
with `year() == 2000 + YY`, `month()` the 1-based index of `Mon`, `day() == DD`,
`hour() == HH`, `minute() == MM` and `second() == SS`; for
`("Jan 02 2021", "03:04:05")` the fields are (2021,1,2,3,4,5). -/
theorem text_parse (m0 i d1 d2 y1 y2 h1 h2 n1 n2 s1 s2 : Nat) (hi : i < 12)
    (hd1 : d1 ≤ 9) (hd2 : d2 ≤ 9) (hy1 : y1 ≤ 9) (hy2 : y2 ≤ 9) (hh1 : h1 ≤ 9) (hh2 : h2 ≤ 9)
    (hn1 : n1 ≤ 9) (hn2 : n2 ≤ 9) (hs1 : s1 ≤ 9) (hs2 : s2 ≤ 9) :
    (∃ dt, DateTime.ofText m0 (dateText (monthNames.getD i "") d1 d2 y1 y2)
        (timeText h1 h2 n1 n2 s1 s2) = some dt ∧
      dt.year = 2000 + (10 * y1 + y2) ∧ dt.month = i + 1 ∧ dt.day = 10 * d1 + d2 ∧
      dt.hour = 10 * h1 + h2 ∧ dt.minute = 10 * n1 + n2 ∧ dt.second = 10 * s1 + s2) ∧
    (∃ dt, DateTime.ofText m0 (cstr "Jan 02 2021") (cstr "03:04:05") = some dt ∧
      dt.year = 2021 ∧ dt.month = 1 ∧ dt.day = 2 ∧ dt.hour = 3 ∧ dt.minute = 4 ∧
      dt.second = 5) := by
  refine ⟨?_, ⟨⟨21, 1, 2, 3, 4, 5⟩, rfl, by decide⟩⟩
  have hc := monthNames_codes
  simp only [monthNames, List.map_cons, List.map_nil, List.cons.injEq, and_true] at hc
  obtain ⟨c1, c2, c3, c4, c5, c6, c7, c8, c9, c10, c11, c12⟩ := hc
  refine ⟨⟨10 * y1 + y2, i + 1, 10 * d1 + d2, 10 * h1 + h2, 10 * n1 + n2, 10 * s1 + s2⟩,
    ?_, rfl, rfl, rfl, rfl, rfl, rfl⟩
  interval_cases i <;>
    simp [monthNames, dateText, timeText, DateTime.ofText, charAt, monthOfText, conv2d_digits,
      hd1, hd2, hy1, hy2, hh1, hh2, hn1, hn2, hs1, hs2, c1, c2, c3, c4, c5, c6, c7, c8, c9, c10,
      c11, c12]

theorem text_parse_witness :
    (∃ dt, DateTime.ofText 0 (dateText (monthNames.getD 5 "") 1 7 4 2)
        (timeText 2 3 5 9 0 8) = some dt ∧
      dt.year = 2000 + (10 * 4 + 2) ∧ dt.month = 5 + 1 ∧ dt.day = 10 * 1 + 7 ∧
      dt.hour = 10 * 2 + 3 ∧ dt.minute = 10 * 5 + 9 ∧ dt.second = 10 * 0 + 8) ∧
    (∃ dt, DateTime.ofText 0 (cstr "Jan 02 2021") (cstr "03:04:05") = some dt ∧
      dt.year = 2021 ∧ dt.month = 1 ∧ dt.day = 2 ∧ dt.hour = 3 ∧ dt.minute = 4 ∧
      dt.second = 5) :=
  text_parse 0 5 1 7 4 2 2 3 5 9 0 8 (by decide) (by decide) (by decide) (by decide)
    (by decide) (by decide) (by decide) (by decide) (by decide) (by decide) (by decide)

theorem toU32_wrapLong_add (x y : Int) : toU32 (wrapLong x + y) = toU32 (x + y) := by
  unfold toU32 wrapLong; omega

theorem toU32_toU32_add (x y : Int) : toU32 ((toU32 x : Int) + y) = toU32 (x + y) := by
  unfold toU32; omega

/-- The seconds that `now()` passes to the epoch constructor after an `adjust`
with `unixtime()` equal to `u`. -/
theorem millis_seconds (u a b : Nat) (hab : a ≤ b) (hu : u + (b - a) < 4294967296) :
    toU32 (wrapLong (toU32 ((u : Int) - (a : Int))) + (b : Int)) = u + (b - a) := by
  rw [toU32_wrapLong_add, toU32_toU32_add]
  unfold toU32; omega

/-- Claim C10: software-clock anchoring: for every valid `DateTime dt` of
2000..2099 and millisecond-counter readings `T <= T'` without a wrap between
them, after `adjust(dt)` at `millis() == T`, `now()` at `millis() == T'` returns
`DateTime(dt.unixtime() + (T'/1000 - T/1000))`, a sum that fits 32 bits; with
`dt = DateTime(2021,1,1,0,0,0)` and `T' = T + 5000` the result is
2021-01-01T00:00:05, five seconds after `dt`. -/
theorem software_clock_anchoring (dt : DateTime) (T T' : Nat) (hv : dt.Valid) (hT : T ≤ T')
    (hT' : T' < 4294967296) :
    (∃ s u, RTC_Millis.adjust dt T = some s ∧ dt.unixtime = some u ∧
      s.now T' = DateTime.ofEpoch (u + (T' / 1000 - T / 1000)) ∧
      u + (T' / 1000 - T / 1000) < 4294967296) ∧
    (T' = T + 5000 →
      ∃ s, RTC_Millis.adjust (DateTime.ofFields 2021 1 1 0 0 0) T = some s ∧
        s.now T' = some ⟨21, 1, 1, 0, 0, 5⟩) := by
  constructor
  · obtain ⟨u, e1, e2, e3, _⟩ := ofEpoch_unixtime dt hv
    have hdiv : T / 1000 ≤ T' / 1000 := Nat.div_le_div_right hT
    have hsum : u + (T' / 1000 - T / 1000) < 4294967296 := by omega
    refine ⟨_, u, by rw [RTC_Millis.adjust, e1], e1, ?_, hsum⟩
    simp only [RTC_Millis.now]
    rw [millis_seconds u (T / 1000) (T' / 1000) hdiv hsum]
  · intro hT5
    subst hT5
    have hu : (DateTime.ofFields 2021 1 1 0 0 0).unixtime = some 1609459200 := by decide
    refine ⟨_, by rw [RTC_Millis.adjust, hu], ?_⟩
    simp only [RTC_Millis.now]
    rw [millis_seconds 1609459200 (T / 1000) ((T + 5000) / 1000) (by omega) (by omega)]
    have e : 1609459200 + ((T + 5000) / 1000 - T / 1000) = 1609459205 := by omega
    rw [e]
    decide

theorem software_clock_anchoring_witness :
    (∃ s u, RTC_Millis.adjust ⟨21, 1, 1, 0, 0, 0⟩ 123456 = some s ∧
      DateTime.unixtime ⟨21, 1, 1, 0, 0, 0⟩ = some u ∧
      s.now 128456 = DateTime.ofEpoch (u + (128456 / 1000 - 123456 / 1000)) ∧
      u + (128456 / 1000 - 123456 / 1000) < 4294967296) ∧
    (128456 = 123456 + 5000 →
      ∃ s, RTC_Millis.adjust (DateTime.ofFields 2021 1 1 0 0 0) 123456 = some s ∧
        s.now 128456 = some ⟨21, 1, 1, 0, 0, 5⟩) :=
  software_clock_anchoring ⟨21, 1, 1, 0, 0, 0⟩ 123456 128456 (by decide) (by decide) (by decide)

/-! ## The hardware clock -/

theorem toU8_lt (x : Int) : toU8 x < 256 := by
  unfold toU8; omega

theorem bin2bcd_lt (val : Nat) : bin2bcd val < 256 := toU8_lt _

theorem bcd2bin_lt (val : Nat) : bcd2bin val < 256 := toU8_lt _

theorem bin2bcd_packed (val : Nat) (h : val ≤ 99) :
    bin2bcd val = 16 * (val / 10) + val % 10 := by
  simp only [bin2bcd, toU8]; omega

theorem bcd2bin_unpacked (b : Nat) (hb : b < 256) : bcd2bin b = 10 * (b / 16) + b % 16 := by
  simp only [bcd2bin, toU8, shiftRight_four]; omega

theorem bcd2bin_bin2bcd (val : Nat) (h : val ≤ 99) : bcd2bin (bin2bcd val) = val := by
  rw [bcd2bin_unpacked _ (bin2bcd_lt val), bin2bcd_packed val h]
  omega

theorem and_0x7F (b : Nat) : b &&& 0x7F = b % 128 := Nat.and_pow_two_sub_one_eq_mod b 7

/-- The calls and the result of `now()` when the device delivers the seven bytes
`b0 .. b6`. -/
theorem now_eq (i b0 b1 b2 b3 b4 b5 b6 : Nat) (log : List WireOp) (rest : List Nat) :
    RTC_DS1307.now i ⟨log, b0 :: b1 :: b2 :: b3 :: b4 :: b5 :: b6 :: rest⟩
      = some (DateTime.ofFields ((bcd2bin (b6 % 256) + 2000) % 65536) (bcd2bin (b5 % 256))
          (bcd2bin (b4 % 256)) (bcd2bin (b2 % 256)) (bcd2bin (b1 % 256))
          (bcd2bin ((b0 &&& 0x7F) % 256)),
        ⟨log ++ [WireOp.beginTransmission 0x68, WireOp.write (i % 256), WireOp.endTransmission,
          WireOp.requestFrom 0x68 7, WireOp.read, WireOp.read, WireOp.read, WireOp.read,
          WireOp.read, WireOp.read, WireOp.read], rest⟩) := by
  simp [RTC_DS1307.now, Wire.read, Wire.beginTransmission, Wire.write, Wire.endTransmission,
    Wire.requestFrom, DS1307_ADDRESS]

/-- The calls and the result of `isrunning()` when the device delivers the
byte `b`. -/
theorem isrunning_eq (i b : Nat) (log : List WireOp) (rest : List Nat) :
    RTC_DS1307.isrunning i ⟨log, b :: rest⟩
      = some (if (b % 256) >>> 7 = 0 then 1 else 0,
        ⟨log ++ [WireOp.beginTransmission 0x68, WireOp.write (i % 256), WireOp.endTransmission,
          WireOp.requestFrom 0x68 1, WireOp.read], rest⟩) := by
  simp [RTC_DS1307.isrunning, Wire.read, Wire.beginTransmission, Wire.write,
    Wire.endTransmission, Wire.requestFrom, DS1307_ADDRESS]

/-- The calls of `adjust(dt)`, for both branches of the source. -/
theorem adjust_eq (i : Nat) (dt : DateTime) (w : Wire) :
    RTC_DS1307.adjust i dt w
      = ⟨w.log ++ [WireOp.beginTransmission 0x68, WireOp.write (i % 256),
          WireOp.write (bin2bcd dt.ss), WireOp.write (bin2bcd dt.mm),
          WireOp.write (bin2bcd dt.hh), WireOp.write 0, WireOp.write (bin2bcd dt.d),
          WireOp.write (bin2bcd dt.m), WireOp.write (bin2bcd (dt.yOff % 256)),
          WireOp.write (i % 256), WireOp.endTransmission], w.rx⟩ ∧
    RTC_DS1307.adjustPre100 i dt w = RTC_DS1307.adjust i dt w := by
  have hy : toU8 (dt.yOff : Int) = dt.yOff % 256 := by
    unfold toU8; omega
  have h0 : bin2bcd 0 = 0 := by decide
  refine ⟨?_, rfl⟩
  simp [RTC_DS1307.adjust, Wire.beginTransmission, Wire.write, Wire.endTransmission,
    DS1307_ADDRESS, DateTime.second, DateTime.minute, DateTime.hour, DateTime.day,
    DateTime.month, DateTime.year, hy, h0, Nat.mod_eq_of_lt (bin2bcd_lt _)]

/-- Claim C11: hardware wire round trip: for every `DateTime dt` with year in
2000..2099, month in 1..12, day in 1..31, hour in 0..23, minute and second in
0..59, when the seven data bytes that `adjust(dt)` writes after the register
pointer are the seven bytes that `now()` reads, `now()` returns a `DateTime`
with the six fields of `dt`. -/
theorem wire_roundtrip (i y m d hh mm ss : Nat) (log : List WireOp) (rest : List Nat)
    (hy : y ≤ 99) (hm1 : 1 ≤ m) (hm : m ≤ 12) (hd1 : 1 ≤ d) (hd : d ≤ 31) (hhh : hh ≤ 23)
    (hmm : mm ≤ 59) (hss : ss ≤ 59) :
    ∃ dt w, RTC_DS1307.now i
        ⟨log, ((Wire.written (RTC_DS1307.adjust i ⟨y, m, d, hh, mm, ss⟩ ⟨[], []⟩).log).drop
          1).take 7 ++ rest⟩ = some (dt, w) ∧
      dt = ⟨y, m, d, hh, mm, ss⟩ ∧ dt.year = 2000 + y ∧ dt.month = m ∧ dt.day = d ∧
      dt.hour = hh ∧ dt.minute = mm ∧ dt.second = ss := by
  have hy256 : y % 256 = y := by omega
  have e : ((Wire.written (RTC_DS1307.adjust i ⟨y, m, d, hh, mm, ss⟩ ⟨[], []⟩).log).drop
      1).take 7
      = [bin2bcd ss, bin2bcd mm, bin2bcd hh, 0, bin2bcd d, bin2bcd m, bin2bcd y] := by
    rw [(adjust_eq i ⟨y, m, d, hh, mm, ss⟩ ⟨[], []⟩).1]
    simp [Wire.written, hy256]
  have hs7 : (bin2bcd ss &&& 0x7F) % 256 = bin2bcd ss := by
    rw [and_0x7F, bin2bcd_packed ss (by omega)]; omega
  have r1 := bcd2bin_bin2bcd ss (by omega)
  have r2 := bcd2bin_bin2bcd mm (by omega)
  have r3 := bcd2bin_bin2bcd hh (by omega)
  have r4 := bcd2bin_bin2bcd d (by omega)
  have r5 := bcd2bin_bin2bcd m (by omega)
  have r6 := bcd2bin_bin2bcd y (by omega)
  have hfy : (y + 2000) % 65536 = 2000 + y := by omega
  rw [e]
  refine ⟨_, _, now_eq i _ _ _ _ _ _ _ log rest, ?_⟩
  simp only [Nat.mod_eq_of_lt (bin2bcd_lt _), hs7, r1, r2, r3, r4, r5, r6, hfy,
    ofFields_full_year y m d hh mm ss hy]
  exact ⟨trivial, rfl, rfl, rfl, rfl, rfl, rfl⟩

theorem wire_roundtrip_witness :
    ∃ dt w, RTC_DS1307.now 0
        ⟨[], ((Wire.written (RTC_DS1307.adjust 0 ⟨99, 12, 31, 23, 59, 59⟩ ⟨[], []⟩).log).drop
          1).take 7 ++ []⟩ = some (dt, w) ∧
      dt = ⟨99, 12, 31, 23, 59, 59⟩ ∧ dt.year = 2000 + 99 ∧ dt.month = 12 ∧ dt.day = 31 ∧
      dt.hour = 23 ∧ dt.minute = 59 ∧ dt.second = 59 :=
  wire_roundtrip 0 99 12 31 23 59 59 [] [] (by decide) (by decide) (by decide) (by decide)
    (by decide) (by decide) (by decide) (by decide)

/-- Claim C12: for every `DateTime dt` (fields are bytes) and register pointer `i`,
`adjust(dt)` makes, on the bus, exactly these calls in this order: one
`beginTransmission(0x68)`, the writes of the register pointer, `bin2bcd(second)`,
`bin2bcd(minute)`, `bin2bcd(hour)`, `0`, `bin2bcd(day)`, `bin2bcd(month)`,
`bin2bcd(year - 2000)` and the register pointer again, and one
`endTransmission()`; the pre-1.0 branch makes the same calls. -/
theorem adjust_bytes (i : Nat) (dt : DateTime) (w : Wire) (hi : i < 256)
    (hy : dt.yOff < 256) :
    (RTC_DS1307.adjust i dt w).log
      = w.log ++ [WireOp.beginTransmission 0x68, WireOp.write i,
          WireOp.write (bin2bcd dt.second), WireOp.write (bin2bcd dt.minute),
          WireOp.write (bin2bcd dt.hour), WireOp.write 0, WireOp.write (bin2bcd dt.day),
          WireOp.write (bin2bcd dt.month), WireOp.write (bin2bcd (dt.year - 2000)),
          WireOp.write i, WireOp.endTransmission] ∧
    Wire.written ((RTC_DS1307.adjust i dt ⟨[], w.rx⟩).log)
      = [i, bin2bcd dt.second, bin2bcd dt.minute, bin2bcd dt.hour, 0, bin2bcd dt.day,
          bin2bcd dt.month, bin2bcd (dt.year - 2000), i] ∧
    (RTC_DS1307.adjust i dt w).rx = w.rx ∧
    RTC_DS1307.adjustPre100 i dt w = RTC_DS1307.adjust i dt w := by
  have hyear : dt.year - 2000 = dt.yOff := by unfold DateTime.year; omega
  have hy256 : dt.yOff % 256 = dt.yOff := Nat.mod_eq_of_lt hy
  have hi256 : i % 256 = i := Nat.mod_eq_of_lt hi
  have h1 := (adjust_eq i dt w).1
  have h2 := (adjust_eq i dt ⟨[], w.rx⟩).1
  rw [hy256, hi256] at h1 h2
  refine ⟨?_, ?_, ?_, (adjust_eq i dt w).2⟩
  · rw [h1, hyear]; rfl
  · rw [h2, hyear]; rfl
  · rw [h1]

theorem adjust_bytes_witness :
    (RTC_DS1307.adjust 0 ⟨21, 1, 2, 3, 4, 5⟩ ⟨[], []⟩).log
      = ([] : List WireOp) ++ [WireOp.beginTransmission 0x68, WireOp.write 0,
          WireOp.write (bin2bcd (DateTime.second ⟨21, 1, 2, 3, 4, 5⟩)),
          WireOp.write (bin2bcd (DateTime.minute ⟨21, 1, 2, 3, 4, 5⟩)),
          WireOp.write (bin2bcd (DateTime.hour ⟨21, 1, 2, 3, 4, 5⟩)), WireOp.write 0,
          WireOp.write (bin2bcd (DateTime.day ⟨21, 1, 2, 3, 4, 5⟩)),
          WireOp.write (bin2bcd (DateTime.month ⟨21, 1, 2, 3, 4, 5⟩)),
          WireOp.write (bin2bcd (DateTime.year ⟨21, 1, 2, 3, 4, 5⟩ - 2000)),
          WireOp.write 0, WireOp.endTransmission] ∧
    Wire.written ((RTC_DS1307.adjust 0 ⟨21, 1, 2, 3, 4, 5⟩ ⟨[], []⟩).log)
      = [0, bin2bcd (DateTime.second ⟨21, 1, 2, 3, 4, 5⟩),
          bin2bcd (DateTime.minute ⟨21, 1, 2, 3, 4, 5⟩),
          bin2bcd (DateTime.hour ⟨21, 1, 2, 3, 4, 5⟩), 0,
          bin2bcd (DateTime.day ⟨21, 1, 2, 3, 4, 5⟩),
          bin2bcd (DateTime.month ⟨21, 1, 2, 3, 4, 5⟩),
          bin2bcd (DateTime.year ⟨21, 1, 2, 3, 4, 5⟩ - 2000), 0] ∧
    (RTC_DS1307.adjust 0 ⟨21, 1, 2, 3, 4, 5⟩ ⟨[], []⟩).rx = [] ∧
    RTC_DS1307.adjustPre100 0 ⟨21, 1, 2, 3, 4, 5⟩ ⟨[], []⟩
      = RTC_DS1307.adjust 0 ⟨21, 1, 2, 3, 4, 5⟩ ⟨[], []⟩ :=
  adjust_bytes 0 ⟨21, 1, 2, 3, 4, 5⟩ ⟨[], []⟩ (by decide) (by decide)

theorem ofFields_from_bcd (b6 m d hh mm ss : Nat) :
    DateTime.ofFields ((bcd2bin b6 + 2000) % 65536) m d hh mm ss
      = ⟨bcd2bin b6, m, d, hh, mm, ss⟩ := by
  have h := bcd2bin_lt b6
  have h1 : (bcd2bin b6 + 2000) % 65536 = bcd2bin b6 + 2000 := by omega
  have h2 : bcd2bin b6 + 2000 ≥ 2000 := by omega
  have h3 : bcd2bin b6 % 256 = bcd2bin b6 := by omega
  simp [DateTime.ofFields, h1, h3]

/-- Claim C13: `now()` ignores the halt flag and the day-of-week register: for two
seven-byte register blocks that differ only in bit 7 of the first byte and in
the fourth byte, `now()` returns the same `DateTime` (and leaves the bus in the
same state); its fields are `bcd2bin` of `byte0 & 0x7F` (second), `byte1`
(minute), `byte2` (hour), `byte4` (day), `byte5` (month), and
`2000 + bcd2bin(byte6)` (year). -/
theorem now_ignores_halt_and_weekday (i b0 c0 b1 b2 b3 c3 b4 b5 b6 : Nat)
    (log : List WireOp) (rest : List Nat) (hb1 : b1 < 256)
    (hb2 : b2 < 256) (hb4 : b4 < 256) (hb5 : b5 < 256) (hb6 : b6 < 256)
    (h7 : b0 % 128 = c0 % 128) :
    RTC_DS1307.now i ⟨log, [b0, b1, b2, b3, b4, b5, b6] ++ rest⟩
      = RTC_DS1307.now i ⟨log, [c0, b1, b2, c3, b4, b5, b6] ++ rest⟩ ∧
    ∃ dt w, RTC_DS1307.now i ⟨log, [b0, b1, b2, b3, b4, b5, b6] ++ rest⟩ = some (dt, w) ∧
      dt.second = bcd2bin (b0 &&& 0x7F) ∧ dt.minute = bcd2bin b1 ∧ dt.hour = bcd2bin b2 ∧
      dt.day = bcd2bin b4 ∧ dt.month = bcd2bin b5 ∧ dt.year = 2000 + bcd2bin b6 := by
  have hand : b0 &&& 0x7F = c0 &&& 0x7F := by rw [and_0x7F, and_0x7F, h7]
  have hm0 : (b0 &&& 0x7F) % 256 = b0 &&& 0x7F := by rw [and_0x7F]; omega
  have e1 := now_eq i b0 b1 b2 b3 b4 b5 b6 log rest
  have e2 := now_eq i c0 b1 b2 c3 b4 b5 b6 log rest
  rw [ofFields_from_bcd, Nat.mod_eq_of_lt hb1, Nat.mod_eq_of_lt hb2, Nat.mod_eq_of_lt hb4,
    Nat.mod_eq_of_lt hb5, Nat.mod_eq_of_lt hb6] at e1 e2
  rw [← hand] at e2
  rw [hm0] at e1 e2
  refine ⟨?_, _, _, e1, rfl, rfl, rfl, rfl, rfl, rfl⟩
  show RTC_DS1307.now i ⟨log, b0 :: b1 :: b2 :: b3 :: b4 :: b5 :: b6 :: rest⟩
    = RTC_DS1307.now i ⟨log, c0 :: b1 :: b2 :: c3 :: b4 :: b5 :: b6 :: rest⟩
  rw [e1, e2]

theorem now_ignores_halt_and_weekday_witness :
    RTC_DS1307.now 0 ⟨[], [0x59, 0x30, 0x12, 3, 0x28, 0x02, 0x24] ++ []⟩
      = RTC_DS1307.now 0 ⟨[], [0xD9, 0x30, 0x12, 7, 0x28, 0x02, 0x24] ++ []⟩ ∧
    ∃ dt w, RTC_DS1307.now 0 ⟨[], [0x59, 0x30, 0x12, 3, 0x28, 0x02, 0x24] ++ []⟩
        = some (dt, w) ∧
      dt.second = bcd2bin (0x59 &&& 0x7F) ∧ dt.minute = bcd2bin 0x30 ∧
      dt.hour = bcd2bin 0x12 ∧ dt.day = bcd2bin 0x28 ∧ dt.month = bcd2bin 0x02 ∧
      dt.year = 2000 + bcd2bin 0x24 :=
  now_ignores_halt_and_weekday 0 0x59 0xD9 0x30 0x12 3 7 0x28 0x02 0x24 [] [] (by decide)
    (by decide) (by decide) (by decide) (by decide) (by decide)

/-- Claim C14: for every byte `b` that the bus returns as the seconds register,
`isrunning()` returns 1 when bit 7 of `b` is 0 and 0 when bit 7 of `b` is 1. -/
theorem isrunning_bit (i b : Nat) (log : List WireOp) (rest : List Nat) (hb : b < 256) :
    ∃ r w, RTC_DS1307.isrunning i ⟨log, b :: rest⟩ = some (r, w) ∧
      (b.testBit 7 = false → r = 1) ∧ (b.testBit 7 = true → r = 0) := by
  have hmod : b % 256 = b := Nat.mod_eq_of_lt hb
  have hshift : (b % 256) >>> 7 = b / 128 := by
    rw [hmod, Nat.shiftRight_eq_div_pow]
  have htest : b.testBit 7 = decide (b / 128 % 2 = 1) := Nat.testBit_to_div_mod
  have e := isrunning_eq i b log rest
  rw [hshift] at e
  refine ⟨_, _, e, ?_, ?_⟩
  · intro h
    rw [htest] at h
    have : b / 128 = 0 := by
      have := of_decide_eq_false h
      omega
    simp [this]
  · intro h
    rw [htest] at h
    have : b / 128 ≠ 0 := by
      have := of_decide_eq_true h
      omega
    simp [this]

theorem isrunning_bit_witness :
    ∃ r w, RTC_DS1307.isrunning 0 ⟨[], 0x80 :: []⟩ = some (r, w) ∧
      (Nat.testBit 0x80 7 = false → r = 1) ∧ (Nat.testBit 0x80 7 = true → r = 0) :=
  isrunning_bit 0 0x80 [] [] (by decide)

/-! ## Ranges, round trip, order and totality of the epoch constructor -/

/-- Claim C15: for every `t` from 946684800 to 4102444799 the `DateTime` built by
the epoch constructor is a real calendar date within the ranges of the data
model: year offset in 0..99, month in 1..12, day from 1 to the length of the
month in that year (29 for February when the year offset is divisible by 4),
hour in 0..23, minute and second in 0..59. -/
theorem epoch_fields_valid (t : Nat) (h1 : 946684800 ≤ t) (h2 : t ≤ 4102444799) :
    ∃ dt, DateTime.ofEpoch t = some dt ∧ dt.yOff ≤ 99 ∧ 1 ≤ dt.m ∧ dt.m ≤ 12 ∧ 1 ≤ dt.d ∧
      dt.d ≤ monthLength (2000 + dt.yOff) dt.m ∧
      dt.d ≤ (if dt.m = 2 then (if dt.yOff % 4 = 0 then 29 else 28)
        else if dt.m = 4 ∨ dt.m = 6 ∨ dt.m = 9 ∨ dt.m = 11 then 30 else 31) ∧
      dt.hh ≤ 23 ∧ dt.mm ≤ 59 ∧ dt.ss ≤ 59 := by
  obtain ⟨dt, e, _, hy, hm1, hm, hd1, hd, hhh, hmm, hss⟩ := unixtime_ofEpoch t h1 h2
  refine ⟨dt, e, hy, hm1, hm, hd1, hd, ?_, hhh, hmm, hss⟩
  rw [monthLength_offset dt.yOff dt.m hy] at hd
  unfold mlen leapFlag at hd
  split_ifs at hd ⊢ <;> omega

theorem epoch_fields_valid_witness :
    ∃ dt, DateTime.ofEpoch 1709164800 = some dt ∧ dt.yOff ≤ 99 ∧ 1 ≤ dt.m ∧ dt.m ≤ 12 ∧
      1 ≤ dt.d ∧ dt.d ≤ monthLength (2000 + dt.yOff) dt.m ∧
      dt.d ≤ (if dt.m = 2 then (if dt.yOff % 4 = 0 then 29 else 28)
        else if dt.m = 4 ∨ dt.m = 6 ∨ dt.m = 9 ∨ dt.m = 11 then 30 else 31) ∧
      dt.hh ≤ 23 ∧ dt.mm ≤ 59 ∧ dt.ss ≤ 59 :=
  epoch_fields_valid 1709164800 (by decide) (by decide)

/-- Claim C16: full-field round trip: for every `DateTime dt` with year in
2000..2099, month in 1..12, day from 1 to the length of the month (February 29
of leap years and the 30th and 31st included), hour in 0..23, minute and second
in 0..59, `DateTime(dt.unixtime())` has all six fields equal to those of `dt`. -/
theorem roundtrip_all_fields (y m d hh mm ss : Nat) (hy1 : 2000 ≤ y) (hy2 : y ≤ 2099)
    (hm1 : 1 ≤ m) (hm : m ≤ 12) (hd1 : 1 ≤ d) (hd : d ≤ monthLength y m) (hhh : hh ≤ 23)
    (hmm : mm ≤ 59) (hss : ss ≤ 59) :
    ∃ u dt, (DateTime.ofFields y m d hh mm ss).unixtime = some u ∧
      DateTime.ofEpoch u = some dt ∧ dt = DateTime.ofFields y m d hh mm ss ∧
      dt.year = y ∧ dt.month = m ∧ dt.day = d ∧ dt.hour = hh ∧ dt.minute = mm ∧
      dt.second = ss := by
  obtain ⟨k, rfl⟩ : ∃ k, y = 2000 + k := ⟨y - 2000, by omega⟩
  have hk : k ≤ 99 := by omega
  rw [ofFields_full_year k m d hh mm ss hk]
  have hv : DateTime.Valid ⟨k, m, d, hh, mm, ss⟩ := ⟨hk, hm1, hm, hd1, hd, hhh, hmm, hss⟩
  obtain ⟨u, e1, _, _, e2⟩ := ofEpoch_unixtime _ hv
  exact ⟨u, _, e1, e2, rfl, rfl, rfl, rfl, rfl, rfl, rfl⟩

theorem roundtrip_all_fields_witness :
    ∃ u dt, (DateTime.ofFields 2024 2 29 23 59 59).unixtime = some u ∧
      DateTime.ofEpoch u = some dt ∧ dt = DateTime.ofFields 2024 2 29 23 59 59 ∧
      dt.year = 2024 ∧ dt.month = 2 ∧ dt.day = 29 ∧ dt.hour = 23 ∧ dt.minute = 59 ∧
      dt.second = 59 :=
  roundtrip_all_fields 2024 2 29 23 59 59 (by decide) (by decide) (by decide) (by decide)
    (by decide) (by decide) (by decide) (by decide) (by decide)

/-- The day number grows with the date. -/
theorem dayNumber_lt (y1 m1 d1 y2 m2 d2 : Nat) (hm1 : 1 ≤ m1) (hm1' : m1 ≤ 12)
    (hd1 : 1 ≤ d1) (hd1' : d1 ≤ mlen (leapFlag y1) m1) (hm2 : 1 ≤ m2) (hm2' : m2 ≤ 12)
    (hd2 : 1 ≤ d2)
    (h : y1 < y2 ∨ (y1 = y2 ∧ (m1 < m2 ∨ (m1 = m2 ∧ d1 < d2)))) :
    365 * y1 + (y1 + 3) / 4 + cumLeap (leapFlag y1) m1 + d1 - 1
      < 365 * y2 + (y2 + 3) / 4 + cumLeap (leapFlag y2) m2 + d2 - 1 := by
  have hc := cumLeap_mlen_le (leapFlag y1) m1 hm1 hm1'
  have hdiv := leapFlag_div y1
  rcases h with h | ⟨rfl, h | ⟨rfl, h⟩⟩
  · omega
  · have hmono := cumLeap_mono (leapFlag y1) m1 hm1 (m2 - (m1 + 1)) (by omega)
    have e : m1 + 1 + (m2 - (m1 + 1)) = m2 := by omega
    rw [e] at hmono
    omega
  · omega

/-- The seconds of a valid `DateTime` grow with the lexicographic order of its
fields. -/
theorem unixtime_lt_of_lexLt (a b : DateTime) (ha : a.Valid) (hb : b.Valid) (ua ub : Nat)
    (ea : a.unixtime = some ua) (eb : b.unixtime = some ub) (h : a.lexLt b) : ua < ub := by
  obtain ⟨y1, m1, d1, hh1, mm1, ss1⟩ := a
  obtain ⟨y2, m2, d2, hh2, mm2, ss2⟩ := b
  obtain ⟨hy1, hm1, hm1', hd1, hd1', hhh1, hmm1, hss1⟩ := ha
  obtain ⟨hy2, hm2, hm2', hd2, hd2', hhh2, hmm2, hss2⟩ := hb
  simp only at hy1 hm1 hm1' hd1 hd1' hhh1 hmm1 hss1 hy2 hm2 hm2' hd2 hd2' hhh2 hmm2 hss2
  rw [monthLength_offset y1 m1 hy1] at hd1'
  rw [monthLength_offset y2 m2 hy2] at hd2'
  have l1 := mlen_le (leapFlag y1) m1 (leapFlag_le y1)
  have l2 := mlen_le (leapFlag y2) m2 (leapFlag_le y2)
  rw [unixtime_closed y1 m1 d1 hh1 mm1 ss1 hy1 hm1 hm1' hd1 (by omega) hhh1 hmm1 hss1] at ea
  rw [unixtime_closed y2 m2 d2 hh2 mm2 ss2 hy2 hm2 hm2' hd2 (by omega) hhh2 hmm2 hss2] at eb
  injection ea with ea
  injection eb with eb
  simp only [DateTime.lexLt, DateTime.year, DateTime.month, DateTime.day, DateTime.hour,
    DateTime.minute, DateTime.second] at h
  by_cases hdate : y1 < y2 ∨ (y1 = y2 ∧ (m1 < m2 ∨ (m1 = m2 ∧ d1 < d2)))
  · have hlt := dayNumber_lt y1 m1 d1 y2 m2 d2 hm1 hm1' hd1 hd1' hm2 hm2' hd2 hdate
    generalize 365 * y1 + (y1 + 3) / 4 + cumLeap (leapFlag y1) m1 + d1 - 1 = D1 at ea hlt
    generalize 365 * y2 + (y2 + 3) / 4 + cumLeap (leapFlag y2) m2 + d2 - 1 = D2 at eb hlt
    omega
  · have hsame : y1 = y2 ∧ m1 = m2 ∧ d1 = d2 := by omega
    obtain ⟨rfl, rfl, rfl⟩ := hsame
    generalize 365 * y1 + (y1 + 3) / 4 + cumLeap (leapFlag y1) m1 + d1 - 1 = D1 at ea eb
    omega

/-- Claim C17: `unixtime()` is strictly order-preserving: for two calendar-valid
`DateTime`s `a` and `b` of 2000..2099, `a` precedes `b` in the lexicographic order
of (year, month, day, hour, minute, second) if and only if
`a.unixtime() < b.unixtime()`. -/
theorem unixtime_strict_mono (a b : DateTime) (ha : a.Valid) (hb : b.Valid) :
    ∃ ua ub, a.unixtime = some ua ∧ b.unixtime = some ub ∧ (a.lexLt b ↔ ua < ub) := by
  obtain ⟨ua, ea, _, _, _⟩ := ofEpoch_unixtime a ha
  obtain ⟨ub, eb, _, _, _⟩ := ofEpoch_unixtime b hb
  refine ⟨ua, ub, ea, eb, unixtime_lt_of_lexLt a b ha hb ua ub ea eb, ?_⟩
  intro hlt
  by_contra hn
  have htri : b.lexLt a ∨ a = b := by
    obtain ⟨y1, m1, d1, hh1, mm1, ss1⟩ := a
    obtain ⟨y2, m2, d2, hh2, mm2, ss2⟩ := b
    simp only [DateTime.lexLt, DateTime.year, DateTime.month, DateTime.day, DateTime.hour,
      DateTime.minute, DateTime.second, DateTime.mk.injEq] at hn ⊢
    omega
  rcases htri with h | h
  · have := unixtime_lt_of_lexLt b a hb ha ub ua eb ea h
    omega
  · subst h
    rw [ea] at eb
    injection eb with eb
    omega

theorem unixtime_strict_mono_witness :
    ∃ ua ub, DateTime.unixtime ⟨23, 12, 31, 23, 59, 59⟩ = some ua ∧
      DateTime.unixtime ⟨24, 1, 1, 0, 0, 0⟩ = some ub ∧
      (DateTime.lexLt ⟨23, 12, 31, 23, 59, 59⟩ ⟨24, 1, 1, 0, 0, 0⟩ ↔ ua < ub) :=
  unixtime_strict_mono ⟨23, 12, 31, 23, 59, 59⟩ ⟨24, 1, 1, 0, 0, 0⟩ (by decide) (by decide)

/-- A year loop that stops keeps its result when given more fuel. -/
theorem yearLoop_more_fuel (k : Nat) : ∀ (fuel y0 days : Nat) (r : Nat × Nat × Nat),
    yearLoop fuel y0 days = some r → yearLoop (fuel + k) y0 days = some r := by
  intro fuel
  induction fuel with
  | zero => intro y0 days r h; simp [yearLoop] at h
  | succ fuel ih =>
    intro y0 days r h
    have e : fuel + 1 + k = (fuel + k) + 1 := by omega
    rw [e]
    simp only [yearLoop] at h ⊢
    by_cases hlt : days < 365 + (if y0 % 4 = 0 then 1 else 0)
    · rw [if_pos hlt] at h ⊢; exact h
    · rw [if_neg hlt] at h ⊢; exact ih _ _ r h

/-- A month loop that stops keeps its result when given more fuel. -/
theorem monthLoop_more_fuel (k : Nat) : ∀ (fuel m leap days : Nat) (r : Nat × Nat),
    monthLoop fuel m leap days = some r → monthLoop (fuel + k) m leap days = some r := by
  intro fuel
  induction fuel with
  | zero => intro m leap days r h; simp [monthLoop] at h
  | succ fuel ih =>
    intro m leap days r h
    have e : fuel + 1 + k = (fuel + k) + 1 := by omega
    rw [e]
    simp only [monthLoop] at h ⊢
    cases hb : pgm_read_byte (m - 1) with
    | none => rw [hb] at h; simp at h
    | some b =>
      rw [hb] at h
      simp only at h ⊢
      by_cases hlt : days < (if leap ≠ 0 ∧ m = 2 then (b + 1) % 256 else b)
      · rw [if_pos hlt] at h ⊢; exact h
      · rw [if_neg hlt] at h ⊢; exact ih _ _ _ r h

/-- Claim C18: the epoch constructor is total on every 32-bit input `t` (also
below 946684800, where the subtraction wraps modulo `2^32`): the day count fits
in 16 bits; the year loop stops, with a year offset below 256, and the month
loop stops, at a month in 1..12, every table read inside the table (a read
outside the table or a loop that ran on would give `none`); more fuel does not
change the results; the constructor returns a `DateTime`. -/
theorem epoch_total (t : Nat) :
    toU32 ((t : Int) - 946684800) / 60 / 60 / 24 < 65536 ∧
    ∃ y leap r m r1,
      yearLoop 256 0 (toU32 ((t : Int) - 946684800) / 60 / 60 / 24 % 65536) = some (y, leap, r) ∧
      y < 256 ∧ monthLoop 13 1 leap r = some (m, r1) ∧ 1 ≤ m ∧ m ≤ 12 ∧ r1 + 1 < 256 ∧
      (∀ k, yearLoop (256 + k) 0 (toU32 ((t : Int) - 946684800) / 60 / 60 / 24 % 65536)
        = some (y, leap, r)) ∧
      (∀ k, monthLoop (13 + k) 1 leap r = some (m, r1)) ∧
      ∃ dt, DateTime.ofEpoch t = some dt ∧ dt.yOff = y ∧ dt.m = m ∧ dt.d = r1 + 1 := by
  have hs : toU32 ((t : Int) - 946684800) < 4294967296 := by unfold toU32; omega
  generalize hs' : toU32 ((t : Int) - 946684800) = s at hs ⊢
  have hdays : s / 60 / 60 / 24 % 65536 = s / 60 / 60 / 24 := by omega
  refine ⟨by omega, ?_⟩
  rw [hdays]
  obtain ⟨y, r, e1, e2, _, _, e5⟩ :=
    yearLoop_spec 256 0 (s / 60 / 60 / 24) (by omega) (by omega)
  have hflag := leapFlag_le y
  obtain ⟨m, r1, f1, f2, f3, f4, _⟩ := monthLoop_spec (leapFlag y) r hflag e2
  have hml := mlen_le (leapFlag y) m hflag
  refine ⟨y, leapFlag y, r, m, r1, e1, by omega, f1, f2, f3, by omega,
    fun k => yearLoop_more_fuel k 256 0 _ _ e1, fun k => monthLoop_more_fuel k 13 1 _ _ _ f1,
    ?_⟩
  have hd : (r1 + 1) % 256 = r1 + 1 := by omega
  have hunf : DateTime.ofEpoch t
      = some ⟨y, m, r1 + 1, s / 60 / 60 % 24, s / 60 % 60, s % 60⟩ := by
    simp only [DateTime.ofEpoch, SECONDS_FROM_1970_TO_2000, Nat.cast_ofNat, hs', hdays, e1, f1,
      hd]
  exact ⟨_, hunf, rfl, rfl, rfl⟩

/-! ## The text constructor outside the documented format -/

/-- Claim C19: `conv2d` accepts a non-digit in the tens position: for every first
character that is not an ASCII digit and every ASCII digit second character `b`,
`conv2d` returns `b - '0'`; so `DateTime("Jan  2 2021", "03:04:05")` has
`day() == 2`, as for `"Jan 02 2021"`. -/
theorem conv2d_nondigit_tens (m0 a b : Nat) (ha : ¬ (48 ≤ a ∧ a ≤ 57)) (hb1 : 48 ≤ b)
    (hb2 : b ≤ 57) :
    conv2d a b = b - 48 ∧
    ∃ dt1 dt2, DateTime.ofText m0 (cstr "Jan  2 2021") (cstr "03:04:05") = some dt1 ∧
      DateTime.ofText m0 (cstr "Jan 02 2021") (cstr "03:04:05") = some dt2 ∧
      dt1.day = 2 ∧ dt2.day = 2 ∧ dt1 = dt2 := by
  constructor
  · simp only [conv2d, ha, if_false, toU8]
    omega
  · exact ⟨⟨21, 1, 2, 3, 4, 5⟩, ⟨21, 1, 2, 3, 4, 5⟩, rfl, rfl, rfl, rfl, rfl⟩

theorem conv2d_nondigit_tens_witness :
    conv2d 32 50 = 50 - 48 ∧
    ∃ dt1 dt2, DateTime.ofText 0 (cstr "Jan  2 2021") (cstr "03:04:05") = some dt1 ∧
      DateTime.ofText 0 (cstr "Jan 02 2021") (cstr "03:04:05") = some dt2 ∧
      dt1.day = 2 ∧ dt2.day = 2 ∧ dt1 = dt2 :=
  conv2d_nondigit_tens 0 32 50 (by decide) (by decide) (by decide)

theorem charAt_some (s : List Nat) (k : Nat) (h : k ≤ s.length) : ∃ c, charAt s k = some c := by
  unfold charAt
  by_cases hlt : k < s.length
  · exact ⟨s[k], by simp [hlt]⟩
  · have : k = s.length := by omega
    exact ⟨0, by simp [this]⟩

theorem charAt_lt (s : List Nat) (k : Nat) (h : k < s.length) : charAt s k = s[k]? := by
  simp [charAt, h]

/-- Claim C20: the text constructor reads only the last two characters of the
4-character year: for two 11-character date strings that agree everywhere
except at offsets 7 and 8, and any time string, the constructor gives the same
result; with a time string of at least 7 characters the result is a `DateTime`,
whose `year()` is 2000 plus the two-digit number at offsets 9..10 when these are
ASCII digits; `"Dec 31 1999"` gives `year() == 2099`. -/
theorem text_year_last_two (m0 : Nat) (date1 date2 time : List Nat)
    (h1 : date1.length = 11) (h2 : date2.length = 11)
    (hagree : ∀ k, k ≠ 7 → k ≠ 8 → date1[k]? = date2[k]?) :
    DateTime.ofText m0 date1 time = DateTime.ofText m0 date2 time ∧
    (7 ≤ time.length →
      ∃ dt, DateTime.ofText m0 date1 time = some dt ∧ DateTime.ofText m0 date2 time = some dt ∧
        ∀ a b, a ≤ 9 → b ≤ 9 → date1[9]? = some (48 + a) → date1[10]? = some (48 + b) →
          dt.year = 2000 + (10 * a + b)) ∧
    ∃ dt, DateTime.ofText m0 (cstr "Dec 31 1999") (cstr "03:04:05") = some dt ∧
      dt.year = 2099 := by
  have hc : ∀ k, k ≠ 7 → k ≠ 8 → charAt date1 k = charAt date2 k := by
    intro k k7 k8
    unfold charAt
    rw [h1, h2, hagree k k7 k8]
  have heq : DateTime.ofText m0 date1 time = DateTime.ofText m0 date2 time := by
    simp only [DateTime.ofText, hc 9 (by decide) (by decide), hc 10 (by decide) (by decide),
      hc 0 (by decide) (by decide), hc 1 (by decide) (by decide),
      hc 2 (by decide) (by decide), hc 4 (by decide) (by decide),
      hc 5 (by decide) (by decide)]
  refine ⟨heq, ?_, ⟨⟨99, 12, 31, 3, 4, 5⟩, rfl, rfl⟩⟩
  intro ht
  obtain ⟨c9, e9⟩ := charAt_some date1 9 (by omega)
  obtain ⟨c10, e10⟩ := charAt_some date1 10 (by omega)
  obtain ⟨c0, e0⟩ := charAt_some date1 0 (by omega)
  obtain ⟨c1, e1⟩ := charAt_some date1 1 (by omega)
  obtain ⟨c2, e2⟩ := charAt_some date1 2 (by omega)
  obtain ⟨c4, e4⟩ := charAt_some date1 4 (by omega)
  obtain ⟨c5, e5⟩ := charAt_some date1 5 (by omega)
  obtain ⟨t0, f0⟩ := charAt_some time 0 (by omega)
  obtain ⟨t1, f1⟩ := charAt_some time 1 (by omega)
  obtain ⟨t3, f3⟩ := charAt_some time 3 (by omega)
  obtain ⟨t4, f4⟩ := charAt_some time 4 (by omega)
  obtain ⟨t6, f6⟩ := charAt_some time 6 (by omega)
  obtain ⟨t7, f7⟩ := charAt_some time 7 (by omega)
  have hres : DateTime.ofText m0 date1 time
      = some ⟨conv2d c9 c10, monthOfText m0 c0 c1 c2, conv2d c4 c5, conv2d t0 t1,
          conv2d t3 t4, conv2d t6 t7⟩ := by
    simp [DateTime.ofText, e9, e10, e0, e1, e2, e4, e5, f0, f1, f3, f4, f6, f7]
  refine ⟨_, hres, by rw [← heq]; exact hres, ?_⟩
  intro a b ha hb ga gb
  rw [charAt_lt date1 9 (by omega), ga] at e9
  rw [charAt_lt date1 10 (by omega), gb] at e10
  injection e9 with e9
  injection e10 with e10
  show 2000 + conv2d c9 c10 = 2000 + (10 * a + b)
  rw [← e9, ← e10, conv2d_digits a b ha hb]

theorem text_year_last_two_witness :
    DateTime.ofText 0 (cstr "Dec 31 1999") (cstr "23:59:58")
      = DateTime.ofText 0 (cstr "Dec 31 2099") (cstr "23:59:58") ∧
    (7 ≤ (cstr "23:59:58").length →
      ∃ dt, DateTime.ofText 0 (cstr "Dec 31 1999") (cstr "23:59:58") = some dt ∧
        DateTime.ofText 0 (cstr "Dec 31 2099") (cstr "23:59:58") = some dt ∧
        ∀ a b, a ≤ 9 → b ≤ 9 → (cstr "Dec 31 1999")[9]? = some (48 + a) →
          (cstr "Dec 31 1999")[10]? = some (48 + b) → dt.year = 2000 + (10 * a + b)) ∧
    ∃ dt, DateTime.ofText 0 (cstr "Dec 31 1999") (cstr "03:04:05") = some dt ∧
      dt.year = 2099 :=
  text_year_last_two 0 (cstr "Dec 31 1999") (cstr "Dec 31 2099") (cstr "23:59:58")
    (by decide) (by decide) (by
      intro k k7 k8
      have e1 : cstr "Dec 31 1999" = [68, 101, 99, 32, 51, 49, 32, 49, 57, 57, 57] := by decide
      have e2 : cstr "Dec 31 2099" = [68, 101, 99, 32, 51, 49, 32, 50, 48, 57, 57] := by decide
      rw [e1, e2]
      rcases Nat.lt_or_ge k 11 with h | h
      · interval_cases k <;> simp at k7 k8 ⊢
      · simp [List.getElem?_eq_none, h])

end TinyRTC
